import Mathlib

/-!
# Formal model of `registro_studenti_ai.py`

A shallow embedding of the student-roster manager: the JSON store codec
(`json.load` / `json.dump(..., ensure_ascii=False, indent=2)` over a UTF-8
file), the average calculator `calcola_media`, the validation rules, and the
mutation operations `aggiungi_studente`, `aggiungi_voto`, `cancella_studente`,
plus the listing projection `stampa_studenti`.

Conventions:
* Python `str` values are modelled as `List Char` (Unicode scalar values; lone
  surrogates, which CPython `str` can hold, are outside the model).
* The store file is modelled as `Option (List Nat)`: `none` is a missing file,
  `some bytes` is the raw byte content (each byte `< 256`).
* Fallible steps return `Option`: a `none` result of an operation models an
  uncaught Python exception propagating out of the function.
* Floats are modelled as exact rationals; IEEE rounding is not modelled. The
  special floats produced by the `json` module's `NaN`/`Infinity` literals are
  modelled by dedicated constructors.
-/

set_option maxRecDepth 40000

namespace Registro

/-- Characters treated as whitespace by Python `str.strip()` (ASCII part;
the model restricts Python's full Unicode whitespace class to the ASCII
whitespace characters). -/
def pyWs (c : Char) : Bool :=
  c = ' ' || c = '\t' || c = '\n' || c = '\r' || c = '\x0b' || c = '\x0c'

/-- Drop leading Python whitespace. -/
def dropWsLeft : List Char → List Char
  | [] => []
  | c :: r => if pyWs c then dropWsLeft r else c :: r

/-- Python `str.strip()`: remove leading and trailing whitespace. -/
def pyStrip (s : List Char) : List Char :=
  (dropWsLeft ((dropWsLeft s.reverse).reverse))

/-- Python `str.lower()`, restricted to ASCII letters (the model maps other
characters to themselves). -/
def pyLowerChar (c : Char) : Char :=
  if 'A' ≤ c && c ≤ 'Z' then Char.ofNat (c.toNat + 32) else c

/-- Python `str.lower()` applied characterwise. -/
def pyLower (s : List Char) : List Char := s.map pyLowerChar

/-- Python `raw.split(",")`: split on every comma, keeping empty pieces;
`"".split(",") = [""]`. -/
def splitComma : List Char → List (List Char)
  | [] => [[]]
  | c :: r =>
    if c = ',' then [] :: splitComma r
    else match splitComma r with
      | [] => [[c]]
      | p :: ps => (c :: p) :: ps

/-- ASCII decimal digit test. -/
def isAsciiDigit (c : Char) : Bool := '0' ≤ c && c ≤ '9'

/-- Value of an ASCII decimal digit. -/
def digitVal (c : Char) : Nat := c.toNat - '0'.toNat

/-- Python `str.isdigit()` on a single character. True for the ASCII decimal
digits and for characters with Unicode property `Numeric_Type=Digit` that are
not decimal digits; of the latter the model covers the superscript and
subscript digits (CPython: `'²'.isdigit() == True`, yet `int('²')` raises
`ValueError`).  Other Unicode numeric characters are outside the model. -/
def pyIsDigitChar (c : Char) : Bool :=
  isAsciiDigit c ||
    ['⁰', '¹', '²', '³', '⁴', '⁵', '⁶', '⁷', '⁸', '⁹',
     '₀', '₁', '₂', '₃', '₄', '₅', '₆', '₇', '₈', '₉'].any (fun d => c == d)

/-- Python `str.isdigit()`: nonempty and every character is a digit. -/
def pyIsdigitStr (s : List Char) : Bool :=
  !s.isEmpty && s.all pyIsDigitChar

/-- Digit run with single underscores allowed between digits, as accepted by
Python `int()` (PEP 515); accumulates the value. -/
def digitsUnd : List Char → Nat → Option Nat
  | [], acc => some acc
  | c :: r, acc =>
    if isAsciiDigit c then digitsUnd r (acc * 10 + digitVal c)
    else if c = '_' then
      match r with
      | d :: r' => if isAsciiDigit d then digitsUnd r' (acc * 10 + digitVal d) else none
      | [] => none
    else none

/-- Python `int(s)` on a string: strips whitespace, accepts one optional sign,
then ASCII decimal digits with single interior underscores.  `none` models a
raised `ValueError`.  (Non-ASCII decimal digits, which CPython also accepts,
are outside the model.) -/
def pyInt (s : List Char) : Option Int :=
  match pyStrip s with
  | [] => none
  | c :: r =>
    if c = '+' then
      match r with
      | [] => none
      | d :: r2 =>
        if isAsciiDigit d then (digitsUnd (d :: r2) 0).map (fun n => (n : Int)) else none
    else if c = '-' then
      match r with
      | [] => none
      | d :: r2 =>
        if isAsciiDigit d then (digitsUnd (d :: r2) 0).map (fun n => -(n : Int)) else none
    else if isAsciiDigit c then (digitsUnd (c :: r) 0).map (fun n => (n : Int))
    else none

/-- The Python values the `json` module can decode or encode in this program:
`None`, `bool`, `int`, `float` (exact rational model), the special floats
produced by the `NaN` / `Infinity` / `-Infinity` literals, `str`, `list`, and
`dict` (insertion-ordered association list with distinct keys, as built by
`json.load`). -/
inductive Json where
  | null : Json
  | bool : Bool → Json
  | intVal : Int → Json
  | floatVal : ℚ → Json
  | nanVal : Json
  | infVal : Json
  | negInfVal : Json
  | str : List Char → Json
  | arr : List Json → Json
  | obj : List (List Char × Json) → Json

/-- Python `dict.get(key)` on the decoded object: `none` models `None`. -/
def objGet (kvs : List (List Char × Json)) (key : List Char) : Option Json :=
  match kvs with
  | [] => none
  | (k, v) :: r => if k = key then some v else objGet r key

/-- Insertion into a CPython dict: an existing key keeps its position and
gets the new value, a new key is appended. -/
def objInsert (kvs : List (List Char × Json)) (key : List Char) (v : Json) :
    List (List Char × Json) :=
  match kvs with
  | [] => [(key, v)]
  | (k, w) :: r => if k = key then (k, v) :: r else (k, w) :: objInsert r key v

/-- Python `dict.setdefault(key, d)` followed by reading the key: returns the
stored value (existing or the inserted default) together with the updated
dict. -/
def objSetdefault (kvs : List (List Char × Json)) (key : List Char) (d : Json) :
    Json × List (List Char × Json) :=
  match objGet kvs key with
  | some v => (v, kvs)
  | none => (d, kvs ++ [(key, d)])

/-- Replace the value of a (present or absent) key, keeping dict order:
used to model in-place mutation of a field. -/
def objSet (kvs : List (List Char × Json)) (key : List Char) (v : Json) :
    List (List Char × Json) := objInsert kvs key v

/-- Python truthiness of a decoded JSON value (`if not studenti:`). -/
def jsonTruthy : Json → Bool
  | .null => false
  | .bool b => b
  | .intVal n => n ≠ 0
  | .floatVal q => q ≠ 0
  | .nanVal => true
  | .infVal => true
  | .negInfVal => true
  | .str s => !s.isEmpty
  | .arr l => !l.isEmpty
  | .obj kvs => !kvs.isEmpty

/-- Python iteration over a decoded JSON value (`for s in studenti`):
a list yields its elements, a string its characters (as 1-character strings),
a dict its keys; other values raise `TypeError` (`none`). -/
def pyIter : Json → Option (List Json)
  | .arr l => some l
  | .str s => some (s.map (fun c => .str [c]))
  | .obj kvs => some (kvs.map (fun kv => .str kv.1))
  | _ => none

/-- Python numbers as produced by arithmetic on decoded grade values:
an exact rational, or one of the IEEE special values. -/
inductive PyNum where
  | rat : ℚ → PyNum
  | nan : PyNum
  | inf : PyNum
  | ninf : PyNum
  deriving DecidableEq

/-- Addition on `PyNum` following IEEE semantics on the special values. -/
def pyAdd : PyNum → PyNum → PyNum
  | .rat a, .rat b => .rat (a + b)
  | .nan, _ => .nan
  | _, .nan => .nan
  | .inf, .ninf => .nan
  | .ninf, .inf => .nan
  | .inf, _ => .inf
  | _, .inf => .inf
  | .ninf, _ => .ninf
  | _, .ninf => .ninf

/-- Python `sum(xs)` (start value `0`). -/
def pySum (xs : List PyNum) : PyNum := xs.foldl pyAdd (.rat 0)

/-- Division of a Python number by a positive integer (`len(...)`). -/
def pyDivNat (x : PyNum) (n : Nat) : PyNum :=
  match x with
  | .rat a => .rat (a / n)
  | .nan => .nan
  | .inf => .inf
  | .ninf => .ninf

/-- `isinstance(v, (int, float))` on a decoded JSON value.  Note that Python
`bool` is a subclass of `int`, so `True`/`False` count as numeric, with values
`1`/`0`; the special floats are `float` instances. -/
def isNumericJson : Json → Bool
  | .intVal _ => true
  | .floatVal _ => true
  | .bool _ => true
  | .nanVal => true
  | .infVal => true
  | .negInfVal => true
  | _ => false

/-- Numeric value of a decoded JSON value accepted by `isNumericJson`. -/
def pyNumOf : Json → PyNum
  | .intVal n => .rat n
  | .floatVal q => .rat q
  | .bool b => .rat (if b then 1 else 0)
  | .nanVal => .nan
  | .infVal => .inf
  | .negInfVal => .ninf
  | _ => .rat 0

/-- `calcola_media`: filter the list to the values satisfying
`isinstance(v, (int, float))` and return their arithmetic mean, or `0.0`
when none remain (source lines 51-52). -/
def calcola_media (voti : List Json) : PyNum :=
  let voti_validi := voti.filter isNumericJson
  if voti_validi.isEmpty then .rat 0
  else pyDivNat (pySum (voti_validi.map pyNumOf)) voti_validi.length

/-- One pass of the grade-list comprehension of `aggiungi_studente` (source
lines 141-145) over the already-split pieces.  `none` models a `ValueError`
escaping the comprehension (possible when a piece passes `str.isdigit` but
`int` rejects it, e.g. `'²'`); the `try`/`except` in the source turns that
into an empty result. -/
def parseGradeListAux : List (List Char) → Option (List Int)
  | [] => some []
  | p :: ps =>
    let s := pyStrip p
    if pyIsdigitStr s then
      match pyInt s with
      | none => none
      | some n =>
        if 18 ≤ n ∧ n ≤ 30 then (parseGradeListAux ps).map (fun l => n :: l)
        else parseGradeListAux ps
    else parseGradeListAux ps

/-- Grade-list parsing of `aggiungi_studente`: split the raw input on commas,
keep the stripped pieces that satisfy `str.isdigit` with integer value in
`[18, 30]`; a `ValueError` anywhere in the comprehension yields `[]`
(source lines 134-147). -/
def parseGradeList (raw : List Char) : List Int :=
  (parseGradeListAux (splitComma raw)).getD []

/-- Decimal value of a digit string. -/
def digitsVal (s : List Char) : Nat := s.foldl (fun a c => a * 10 + digitVal c) 0

/-- Modelled from the spec (§4.3 `parse_grade_list`), one piece: keep the
piece's integer value iff the trimmed piece consists entirely of decimal
digits and the value lies in [18, 30]. -/
def specPiece (p : List Char) : Option Int :=
  let s := pyStrip p
  if s ≠ [] ∧ (∀ c ∈ s, isAsciiDigit c = true) ∧ 18 ≤ digitsVal s ∧ digitsVal s ≤ 30
  then some ((digitsVal s : Int)) else none

/-- Modelled from the spec (§4.3 `parse_grade_list`), for comparison with the
code's `parseGradeList`: split on commas and keep exactly the conforming
pieces' values; each non-conforming piece is dropped individually, never
affecting the others. -/
def specGradeList (raw : List Char) : List Int :=
  (splitComma raw).filterMap specPiece

/-- Character of a decimal digit value. -/
def digitCharOf (d : Nat) : Char := Char.ofNat ('0'.toNat + d)

/-- Decimal rendering of a natural number (fuel-based recursion, the fuel
strictly dominating the digit count so it never runs out for `natToChars`). -/
def natToCharsAux : Nat → Nat → List Char
  | 0, _ => []
  | fuel + 1, n =>
    if n < 10 then [digitCharOf n]
    else natToCharsAux fuel (n / 10) ++ [digitCharOf (n % 10)]

/-- Decimal rendering of a natural number, as Python `str`/`json.dump`
produce it. -/
def natToChars (n : Nat) : List Char := natToCharsAux (n + 1) n

/-- Decimal rendering of an integer. -/
def intChars (n : Int) : List Char :=
  if n < 0 then '-' :: natToChars n.natAbs else natToChars n.toNat

/-- UTF-8 encoding of one Unicode scalar value. -/
def utf8EncChar (n : Nat) : List Nat :=
  if n < 0x80 then [n]
  else if n < 0x800 then [0xC0 + n / 64, 0x80 + n % 64]
  else if n < 0x10000 then [0xE0 + n / 4096, 0x80 + n / 64 % 64, 0x80 + n % 64]
  else [0xF0 + n / 262144, 0x80 + n / 4096 % 64, 0x80 + n / 64 % 64, 0x80 + n % 64]

/-- UTF-8 encoding of a string, as written by `open(..., "w",
encoding="utf-8")`. -/
def utf8Encode (s : List Char) : List Nat :=
  s.foldr (fun c acc => utf8EncChar c.toNat ++ acc) []

/-- Strict UTF-8 decoding of a byte sequence, as performed by
`open(..., encoding='utf-8')` when the file is read: rejects malformed
sequences, overlong encodings, surrogates and values beyond `U+10FFFF`
(`none` models an uncaught `UnicodeDecodeError`). -/
def utf8Decode : List Nat → Option (List Char)
  | [] => some []
  | b0 :: rest =>
    if b0 < 0x80 then (utf8Decode rest).map (fun cs => Char.ofNat b0 :: cs)
    else if b0 < 0xC2 then none
    else if b0 < 0xE0 then
      match rest with
      | b1 :: r =>
        if 0x80 ≤ b1 ∧ b1 < 0xC0 then
          (utf8Decode r).map (fun cs => Char.ofNat ((b0 - 0xC0) * 64 + (b1 - 0x80)) :: cs)
        else none
      | [] => none
    else if b0 < 0xF0 then
      match rest with
      | b1 :: b2 :: r =>
        if 0x80 ≤ b1 ∧ b1 < 0xC0 ∧ 0x80 ≤ b2 ∧ b2 < 0xC0
            ∧ ¬(b0 = 0xE0 ∧ b1 < 0xA0) ∧ ¬(b0 = 0xED ∧ 0xA0 ≤ b1) then
          (utf8Decode r).map
            (fun cs => Char.ofNat ((b0 - 0xE0) * 4096 + (b1 - 0x80) * 64 + (b2 - 0x80)) :: cs)
        else none
      | _ => none
    else if b0 < 0xF5 then
      match rest with
      | b1 :: b2 :: b3 :: r =>
        if 0x80 ≤ b1 ∧ b1 < 0xC0 ∧ 0x80 ≤ b2 ∧ b2 < 0xC0 ∧ 0x80 ≤ b3 ∧ b3 < 0xC0
            ∧ ¬(b0 = 0xF0 ∧ b1 < 0x90) ∧ ¬(b0 = 0xF4 ∧ 0x90 ≤ b1) then
          (utf8Decode r).map
            (fun cs => Char.ofNat
              ((b0 - 0xF0) * 262144 + (b1 - 0x80) * 4096 + (b2 - 0x80) * 64 + (b3 - 0x80)) :: cs)
        else none
      | _ => none
    else none

/-- Lowercase hexadecimal digit, as in CPython's `'\u%04x'` escapes. -/
def hexDigitChar (d : Nat) : Char :=
  if d < 10 then Char.ofNat ('0'.toNat + d) else Char.ofNat ('a'.toNat + (d - 10))

/-- JSON string escaping with `ensure_ascii=False`: only `"`, `\` and control
characters below `U+0020` are escaped (the latter via the short escapes
`\b \t \n \f \r` or `\u00xx`); everything else, including non-ASCII, is
written literally. -/
def escapeChar (c : Char) : List Char :=
  if c = '"' then ['\\', '"']
  else if c = '\\' then ['\\', '\\']
  else if c = '\x08' then ['\\', 'b']
  else if c = '\x09' then ['\\', 't']
  else if c = '\x0a' then ['\\', 'n']
  else if c = '\x0c' then ['\\', 'f']
  else if c = '\x0d' then ['\\', 'r']
  else if c.toNat < 0x20 then
    ['\\', 'u', '0', '0', hexDigitChar (c.toNat / 16), hexDigitChar (c.toNat % 16)]
  else [c]

/-- Escape every character of a string body. -/
def escapeStr (s : List Char) : List Char := s.foldr (fun c acc => escapeChar c ++ acc) []

/-- A JSON string literal as `json.dump(..., ensure_ascii=False)` writes it. -/
def dumpStr (s : List Char) : List Char := '"' :: (escapeStr s ++ ['"'])

/-- Newline plus the 2-space indentation of `json.dump(..., indent=2)` at a
given nesting level. -/
def nlInd (lvl : Nat) : List Char := '\n' :: List.replicate (2 * lvl) ' '

/-- Serialized form of a float.  Python writes `repr(float)`; IEEE floats are
outside the rational model, so this rendering is a stand-in (integer part
only) and every serializer theorem below excludes float values via
`FloatFree`. -/
def dumpFloat (q : ℚ) : List Char := intChars ⌊q⌋

mutual
/-- `json.dump(value, file, ensure_ascii=False, indent=2)` at a nesting
level: the exact character stream CPython emits for the modelled values
(with the separators `(',', ': ')` that are the default when `indent` is
given). -/
def dumpValue : Json → Nat → List Char
  | .null, _ => ['n', 'u', 'l', 'l']
  | .bool true, _ => ['t', 'r', 'u', 'e']
  | .bool false, _ => ['f', 'a', 'l', 's', 'e']
  | .nanVal, _ => ['N', 'a', 'N']
  | .infVal, _ => ['I', 'n', 'f', 'i', 'n', 'i', 't', 'y']
  | .negInfVal, _ => ['-', 'I', 'n', 'f', 'i', 'n', 'i', 't', 'y']
  | .intVal n, _ => intChars n
  | .floatVal q, _ => dumpFloat q
  | .str s, _ => dumpStr s
  | .arr [], _ => ['[', ']']
  | .arr (x :: xs), lvl =>
    '[' :: (nlInd (lvl + 1) ++ dumpValue x (lvl + 1) ++ dumpItems xs (lvl + 1)
      ++ nlInd lvl ++ [']'])
  | .obj [], _ => ['{', '}']
  | .obj (kv :: kvs), lvl =>
    '{' :: (nlInd (lvl + 1) ++ dumpStr kv.1 ++ ':' :: ' ' :: dumpValue kv.2 (lvl + 1)
      ++ dumpPairs kvs (lvl + 1) ++ nlInd lvl ++ ['}'])

/-- Remaining array items, each preceded by `,` and a fresh indented line. -/
def dumpItems : List Json → Nat → List Char
  | [], _ => []
  | x :: xs, lvl => ',' :: (nlInd lvl ++ dumpValue x lvl ++ dumpItems xs lvl)

/-- Remaining object pairs, each preceded by `,` and a fresh indented line. -/
def dumpPairs : List (List Char × Json) → Nat → List Char
  | [], _ => []
  | kv :: kvs, lvl =>
    ',' :: (nlInd lvl ++ dumpStr kv.1 ++ ':' :: ' ' :: dumpValue kv.2 lvl ++ dumpPairs kvs lvl)
end

mutual
/-- Values whose serialization the model renders exactly as CPython does:
everything except finite `float` instances (see `dumpFloat`). -/
def floatFree : Json → Bool
  | .floatVal _ => false
  | .arr l => floatFreeList l
  | .obj kvs => floatFreePairs kvs
  | _ => true

/-- `floatFree` on every element of a list. -/
def floatFreeList : List Json → Bool
  | [] => true
  | x :: xs => floatFree x && floatFreeList xs

/-- `floatFree` on every value of an association list. -/
def floatFreePairs : List (List Char × Json) → Bool
  | [] => true
  | kv :: kvs => floatFree kv.2 && floatFreePairs kvs
end

/-- JSON whitespace (`' '`, `'\t'`, `'\n'`, `'\r'`), as skipped by
`json.load`. -/
def jsonWs (c : Char) : Bool := c = ' ' || c = '\t' || c = '\n' || c = '\r'

/-- Skip JSON whitespace. -/
def skipWs : List Char → List Char
  | [] => []
  | c :: r => if jsonWs c then skipWs r else c :: r

/-- Value of one hexadecimal digit (either case), by code point: `0`-`9` are
48-57, `A`-`F` are 65-70, `a`-`f` are 97-102. -/
def hexVal (c : Char) : Option Nat :=
  if 48 ≤ c.toNat ∧ c.toNat ≤ 57 then some (c.toNat - 48)
  else if 97 ≤ c.toNat ∧ c.toNat ≤ 102 then some (c.toNat - 87)
  else if 65 ≤ c.toNat ∧ c.toNat ≤ 70 then some (c.toNat - 55)
  else none

/-- Value of a four-digit hexadecimal escape. -/
def hex4val (a b c d : Char) : Option Nat :=
  match hexVal a, hexVal b, hexVal c, hexVal d with
  | some w, some x, some y, some z => some (((w * 16 + x) * 16 + y) * 16 + z)
  | _, _, _, _ => none

/-- Body of a JSON string literal after the opening quote, in the default
strict mode of `json.load`: literal characters must not be control characters,
escapes are `\" \\ \/ \b \f \n \r \t` and `\uXXXX` with surrogate pairs
combined.  A lone surrogate, which CPython would keep in the `str`, is not a
Unicode scalar value and is rejected by the model.  The fuel only bounds the
recursion; every step consumes at least one input character, so the wrapper
`parseStringBody` supplies fuel that can never run out. -/
def parseStringBodyF : Nat → List Char → Option (List Char × List Char)
  | 0, _ => none
  | fuel + 1, s =>
    match s with
    | [] => none
    | c :: r =>
      if c = '"' then some ([], r)
      else if c = '\\' then
        match r with
        | [] => none
        | e :: r2 =>
          if e = '"' then (parseStringBodyF fuel r2).map (fun p => ('"' :: p.1, p.2))
          else if e = '\\' then (parseStringBodyF fuel r2).map (fun p => ('\\' :: p.1, p.2))
          else if e = '/' then (parseStringBodyF fuel r2).map (fun p => ('/' :: p.1, p.2))
          else if e = 'b' then (parseStringBodyF fuel r2).map (fun p => ('\x08' :: p.1, p.2))
          else if e = 'f' then (parseStringBodyF fuel r2).map (fun p => ('\x0c' :: p.1, p.2))
          else if e = 'n' then (parseStringBodyF fuel r2).map (fun p => ('\x0a' :: p.1, p.2))
          else if e = 'r' then (parseStringBodyF fuel r2).map (fun p => ('\x0d' :: p.1, p.2))
          else if e = 't' then (parseStringBodyF fuel r2).map (fun p => ('\x09' :: p.1, p.2))
          else if e = 'u' then
            match r2 with
            | a :: b :: c1 :: d :: r3 =>
              match hex4val a b c1 d with
              | none => none
              | some n =>
                if 0xD800 ≤ n ∧ n ≤ 0xDBFF then
                  match r3 with
                  | e2 :: u2 :: a2 :: b2 :: c2 :: d2 :: r4 =>
                    if e2 = '\\' ∧ u2 = 'u' then
                      match hex4val a2 b2 c2 d2 with
                      | none => none
                      | some m =>
                        if 0xDC00 ≤ m ∧ m ≤ 0xDFFF then
                          (parseStringBodyF fuel r4).map (fun p =>
                            (Char.ofNat (0x10000 + (n - 0xD800) * 0x400 + (m - 0xDC00)) :: p.1,
                              p.2))
                        else none
                    else none
                  | _ => none
                else if 0xDC00 ≤ n ∧ n ≤ 0xDFFF then none
                else (parseStringBodyF fuel r3).map (fun p => (Char.ofNat n :: p.1, p.2))
            | _ => none
          else none
      else if c.toNat < 0x20 then none
      else (parseStringBodyF fuel r).map (fun p => (c :: p.1, p.2))

/-- Body of a JSON string literal after the opening quote (see
`parseStringBodyF`; the supplied fuel strictly dominates the number of steps,
each of which consumes at least one character). -/
def parseStringBody (s : List Char) : Option (List Char × List Char) :=
  parseStringBodyF (s.length + 1) s

/-- Maximal ASCII digit prefix. -/
def takeDigits : List Char → List Char × List Char
  | [] => ([], [])
  | c :: r =>
    if isAsciiDigit c then
      match takeDigits r with
      | (d, t) => (c :: d, t)
    else ([], c :: r)

/-- The integer part of a JSON number: `0` or a nonzero digit followed by
digits (no leading zeros), per the scanner regex
`(-?(?:0|[1-9]\d+|[1-9]))`. -/
def parseIntPart : List Char → Option (List Char × List Char)
  | [] => none
  | c :: r =>
    if c = '0' then some (['0'], r)
    else if isAsciiDigit c then
      match takeDigits r with
      | (d, t) => some (c :: d, t)
    else none

/-- The optional fraction of a JSON number: a dot followed by at least one
digit; anything else leaves the input untouched (the scanner regex simply
does not extend the match). -/
def parseFrac (r1 : List Char) : List Char × List Char :=
  match r1 with
  | c :: t =>
    if c = '.' then
      match takeDigits t with
      | ([], _) => ([], r1)
      | (d, t2) => (d, t2)
    else ([], r1)
  | [] => ([], r1)

/-- The optional exponent of a JSON number: `e`/`E`, an optional sign, and at
least one digit; anything else contributes nothing. -/
def parseExp (r2 : List Char) : Option (Int × List Char) :=
  match r2 with
  | c :: t =>
    if c = 'e' ∨ c = 'E' then
      match t with
      | c2 :: t2 =>
        if c2 = '+' then
          match takeDigits t2 with
          | ([], _) => none
          | (d, t3) => some ((digitsVal d : Int), t3)
        else if c2 = '-' then
          match takeDigits t2 with
          | ([], _) => none
          | (d, t3) => some (-(digitsVal d : Int), t3)
        else
          match takeDigits (c2 :: t2) with
          | ([], _) => none
          | (d, t3) => some ((digitsVal d : Int), t3)
      | [] => none
    else none
  | [] => none

/-- Body of a JSON number after the optional minus sign. -/
def parseNumBody (neg : Bool) (s1 : List Char) : Option (Json × List Char) :=
  match parseIntPart s1 with
  | none => none
  | some (ds, r1) =>
    let (fd, r2) := parseFrac r1
    let eo := parseExp r2
    let r3 := match eo with
      | some (_, t) => t
      | none => r2
    if fd.isEmpty && eo.isNone then
      let v : Int := if neg then -(digitsVal ds : Int) else (digitsVal ds : Int)
      some (.intVal v, r1)
    else
      let base : ℚ := (digitsVal ds : ℚ) + (digitsVal fd : ℚ) / ((10 : ℚ) ^ fd.length)
      let scaled : ℚ := match eo with
        | some (e, _) => if 0 ≤ e then base * (10 : ℚ) ^ e.toNat else base / (10 : ℚ) ^ (-e).toNat
        | none => base
      some (.floatVal (if neg then -scaled else scaled), r3)

/-- A JSON number as matched by the scanner's `NUMBER_RE`: optional minus,
integer part, optional fraction, optional exponent.  Without fraction and
exponent the result is a Python `int`, otherwise a `float` (modelled as the
exact rational; IEEE rounding is not modelled). -/
def parseNumber (s : List Char) : Option (Json × List Char) :=
  match s with
  | [] => none
  | c :: t => if c = '-' then parseNumBody true t else parseNumBody false (c :: t)

/-- Strip an expected literal prefix. -/
def stripLit : List Char → List Char → Option (List Char)
  | [], s => some s
  | c :: p, d :: s => if c = d then stripLit p s else none
  | _ :: _, [] => none

mutual
/-- One JSON value, as decoded by `json.load`'s recursive scanner.  The fuel
argument bounds the recursion (CPython's scanner is likewise bounded, by the
interpreter recursion limit); `parseJson` supplies fuel ample for its input. -/
def parseValue : Nat → List Char → Option (Json × List Char)
  | 0, _ => none
  | fuel + 1, s =>
    match skipWs s with
    | [] => none
    | c :: rest =>
      if c = '"' then (parseStringBody rest).map (fun p => (.str p.1, p.2))
      else if c = '{' then
        match skipWs rest with
        | [] => none
        | c2 :: r2 =>
          if c2 = '}' then some (.obj [], r2) else parseMembers fuel [] (c2 :: r2)
      else if c = '[' then
        match skipWs rest with
        | [] => none
        | c2 :: r2 =>
          if c2 = ']' then some (.arr [], r2) else parseElements fuel [] (c2 :: r2)
      else if c = 'n' then (stripLit ['u', 'l', 'l'] rest).map (fun r => (.null, r))
      else if c = 't' then (stripLit ['r', 'u', 'e'] rest).map (fun r => (.bool true, r))
      else if c = 'f' then (stripLit ['a', 'l', 's', 'e'] rest).map (fun r => (.bool false, r))
      else if c = 'N' then (stripLit ['a', 'N'] rest).map (fun r => (.nanVal, r))
      else if c = 'I' then
        (stripLit ['n', 'f', 'i', 'n', 'i', 't', 'y'] rest).map (fun r => (.infVal, r))
      else
        match parseNumber (c :: rest) with
        | some p => some p
        | none =>
          if c = '-' then
            (stripLit ['I', 'n', 'f', 'i', 'n', 'i', 't', 'y'] rest).map
              (fun r => (.negInfVal, r))
          else none

/-- Array elements after `[` (whitespace already skipped), accumulating in
order; `]` closes, `,` continues. -/
def parseElements : Nat → List Json → List Char → Option (Json × List Char)
  | 0, _, _ => none
  | fuel + 1, acc, s =>
    match parseValue fuel s with
    | none => none
    | some (j, r) =>
      match skipWs r with
      | [] => none
      | c2 :: r2 =>
        if c2 = ',' then parseElements fuel (acc ++ [j]) r2
        else if c2 = ']' then some (.arr (acc ++ [j]), r2)
        else none

/-- Object members starting at a key (whitespace already skipped); pairs are
accumulated with CPython `dict` semantics (`objInsert`). -/
def parseMembers : Nat → List (List Char × Json) → List Char → Option (Json × List Char)
  | 0, _, _ => none
  | fuel + 1, pairs, s =>
    match s with
    | [] => none
    | c0 :: r =>
      if c0 = '"' then
        match parseStringBody r with
        | none => none
        | some (k, r1) =>
          match skipWs r1 with
          | [] => none
          | c1 :: r2 =>
            if c1 = ':' then
              match parseValue fuel r2 with
              | none => none
              | some (v, r3) =>
                match skipWs r3 with
                | [] => none
                | c3 :: r4 =>
                  if c3 = ',' then parseMembers fuel (objInsert pairs k v) (skipWs r4)
                  else if c3 = '}' then some (.obj (objInsert pairs k v), r4)
                  else none
            else none
      else none
end

/-- `json.load` on the decoded text: parse one value and require only
whitespace to follow. -/
def parseJson (s : List Char) : Option Json :=
  match parseValue (2 * s.length + 2) s with
  | some (j, r) => if (skipWs r).isEmpty then some j else none
  | none => none

/-- `leggi_studenti_da_file` (source lines 28-33): read and JSON-decode the
store file.  A missing file (`FileNotFoundError`) or undecodable JSON content
(`json.JSONDecodeError`) is caught and yields `[]`; the decoded value is
returned as-is with no further checks.  Bytes that are not valid UTF-8 raise
`UnicodeDecodeError`, which the `except` clause does not cover: that uncaught
exception is modelled by the `none` result. -/
def leggi_studenti_da_file (store : Option (List Nat)) : Option Json :=
  match store with
  | none => some (.arr [])
  | some bytes =>
    match utf8Decode bytes with
    | none => none
    | some s =>
      match parseJson s with
      | none => some (.arr [])
      | some j => some j

/-- The byte stream written by
`json.dump(value, file, ensure_ascii=False, indent=2)` over a UTF-8 file, as
every mutation operation performs it. -/
def salvaBytes (j : Json) : List Nat := utf8Encode (dumpValue j 0)

/-- One row of the listing (source lines 68-75): the `matricola`, `nome` and
`cognome` values with the dictionary-`get` default `'N/D'` for an absent key,
and the average of the `voti` value (default `[]`) computed by
`calcola_media`.  A non-dict record (`.get` missing) or a non-iterable `voti`
value raises (`none`).  The 2-decimal formatting of the printed average is
presentation only and not part of the projection. -/
def riga (studente : Json) : Option (Json × Json × Json × PyNum) :=
  match studente with
  | .obj kvs =>
    let matricola := (objGet kvs ("matricola".data)).getD (.str ("N/D".data))
    let nome := (objGet kvs ("nome".data)).getD (.str ("N/D".data))
    let cognome := (objGet kvs ("cognome".data)).getD (.str ("N/D".data))
    let voti := (objGet kvs ("voti".data)).getD (.arr [])
    match pyIter voti with
    | none => none
    | some elems => some (matricola, nome, cognome, calcola_media elems)
  | _ => none

/-- `stampa_studenti` as a pure projection: the displayed row of every
student, in roster order.  It takes no store and returns no store — the
operation mutates nothing and persists nothing. -/
def stampa_studenti (studenti : List Json) : Option (List (Json × Json × Json × PyNum)) :=
  studenti.mapM riga

/-- Outcome of `aggiungi_studente`. -/
inductive AddResult where
  | added : AddResult
  | noValidGrades : AddResult
  deriving DecidableEq

/-- Outcome of `aggiungi_voto`. -/
inductive VotoResult where
  | added : VotoResult
  | studentNotFound : VotoResult
  | invalidGrade : VotoResult
  deriving DecidableEq

/-- Outcome of `cancella_studente`. -/
inductive DelResult where
  | deleted : DelResult
  | emptyRoster : DelResult
  | studentNotFound : DelResult
  | cancelled : DelResult
  deriving DecidableEq

/-- `s.get("matricola") == matricola_input` for the string `matricola_input`:
true iff the field is present and is an equal string (Python `==` between a
string and a value of any other type is `False`). -/
def matchesMatricola (kvs : List (List Char × Json)) (m : List Char) : Bool :=
  match objGet kvs ("matricola".data) with
  | some (.str s) => s = m
  | _ => false

/-- The linear scan shared by `aggiungi_voto` (via `next` on a generator)
and `cancella_studente` (via `enumerate` with `break`): index of the first
element matching the `matricola`, evaluated lazily — elements after the first
match are never touched.  A non-dict element reached before a match raises
`AttributeError` (`none`); `some none` is "no match". -/
def findStudente : List Json → List Char → Option (Option Nat)
  | [], _ => some none
  | .obj kvs :: rest, m =>
    if matchesMatricola kvs m then some (some 0)
    else (findStudente rest m).map (fun o => o.map (· + 1))
  | _ :: _, _ => none

/-- `aggiungi_studente` (source lines 95-176).  The three identity arguments
are the raw strings accepted by the prompt loops (the code applies `.strip()`
to each; the loops only re-prompt and do not change the accepted value).
Grades are parsed first; an empty result aborts with `NoValidGrades` before
the store is even read.  Otherwise the store is loaded, the new record is
appended and the whole roster is rewritten.  Appending to a decoded non-list
raises `AttributeError` (`none`). -/
def aggiungi_studente (store : Option (List Nat))
    (matricolaInput nomeInput cognomeInput votiInput : List Char) :
    Option (Option (List Nat) × AddResult) :=
  let matricola := pyStrip matricolaInput
  let nome := pyStrip nomeInput
  let cognome := pyStrip cognomeInput
  let voti := parseGradeList votiInput
  if voti.isEmpty then some (store, .noValidGrades)
  else
    match leggi_studenti_da_file store with
    | none => none
    | some (.arr studenti) =>
      let nuovo : Json := .obj
        [(("matricola".data), .str matricola), (("nome".data), .str nome),
         (("cognome".data), .str cognome), (("voti".data), .arr (voti.map Json.intVal))]
      some (some (salvaBytes (.arr (studenti ++ [nuovo]))), .added)
    | some _ => none

/-- `aggiungi_voto` (source lines 179-226): load, look up the first record
with the given `matricola` (not found → return with no write), parse and
range-check the grade (invalid → return with no write), then append the grade
to the record's `voti` (`setdefault("voti", [])` creates the list when the
key is absent; a present non-list value makes `.append` raise) and rewrite
the whole roster. -/
def aggiungi_voto (store : Option (List Nat)) (matricolaInput votoInput : List Char) :
    Option (Option (List Nat) × VotoResult) :=
  match leggi_studenti_da_file store with
  | none => none
  | some studenti =>
    let m := pyStrip matricolaInput
    match studenti with
    | .arr l =>
      match findStudente l m with
      | none => none
      | some none => some (store, .studentNotFound)
      | some (some i) =>
        match pyInt (pyStrip votoInput) with
        | none => some (store, .invalidGrade)
        | some voto =>
          if 18 ≤ voto ∧ voto ≤ 30 then
            match l.get? i with
            | some (.obj kvs) =>
              match objGet kvs ("voti".data) with
              | some (.arr vs) =>
                some (some (salvaBytes
                  (.arr (l.set i (.obj (objSet kvs ("voti".data)
                    (.arr (vs ++ [.intVal voto]))))))), .added)
              | some _ => none
              | none =>
                some (some (salvaBytes
                  (.arr (l.set i (.obj (kvs ++ [(("voti".data), .arr [.intVal voto])]))))),
                  .added)
            | _ => none
          else some (store, .invalidGrade)
    | other =>
      match pyIter other with
      | none => none
      | some elems =>
        match findStudente elems m with
        | some none => some (store, .studentNotFound)
        | _ => none

/-- `cancella_studente` (source lines 229-282): load; an untruthy decoded
value (in particular an empty roster) aborts with `EmptyRoster`; then look up
the first record with the given `matricola` (not found → return with no
write); then ask for confirmation — the stripped, lowercased reply must be
`"s"`, anything else cancels with no write; finally `pop` the record at its
index and rewrite the whole roster. -/
def cancella_studente (store : Option (List Nat))
    (matricolaInput confermaInput : List Char) :
    Option (Option (List Nat) × DelResult) :=
  match leggi_studenti_da_file store with
  | none => none
  | some studenti =>
    if !jsonTruthy studenti then some (store, .emptyRoster)
    else
      let m := pyStrip matricolaInput
      match studenti with
      | .arr l =>
        match findStudente l m with
        | none => none
        | some none => some (store, .studentNotFound)
        | some (some i) =>
          if pyLower (pyStrip confermaInput) = ("s".data) then
            some (some (salvaBytes (.arr (l.eraseIdx i))), .deleted)
          else some (store, .cancelled)
      | other =>
        match pyIter other with
        | none => none
        | some elems =>
          match findStudente elems m with
          | some none => some (store, .studentNotFound)
          | _ => none

/-- A well-formed student record: string identity fields and integer
grades — exactly what `aggiungi_studente` creates. -/
structure Studente where
  matricola : List Char
  nome : List Char
  cognome : List Char
  voti : List Int

/-- The in-memory dict a `Studente` denotes. -/
def studenteJson (st : Studente) : Json :=
  .obj [(("matricola".data), .str st.matricola), (("nome".data), .str st.nome),
        (("cognome".data), .str st.cognome), (("voti".data), .arr (st.voti.map Json.intVal))]

/-- The in-memory list of dicts a roster denotes. -/
def rosterToJson (roster : List Studente) : Json := .arr (roster.map studenteJson)

/-- `save(path, roster)`: the bytes the mutation operations' encoder
(`json.dump(..., ensure_ascii=False, indent=2)` to a UTF-8 file) writes for a
roster of valid records. -/
def salvaRoster (roster : List Studente) : List Nat := salvaBytes (rosterToJson roster)

/-- Parser fuel sufficient for a roster's records: each record needs
`2 * |voti| + 10` fuel for its grades array plus one step per member chain,
plus one list step. -/
def votiFuel : List Studente → Nat
  | [] => 1
  | st :: sts => 2 * st.voti.length + 11 + votiFuel sts

/-- A one-record sample store: the §8 scenario roster
`[{"matricola":"S1","nome":"Ana","cognome":"Li","voti":[20,22]}]`, persisted. -/
def sampleStore : Option (List Nat) :=
  some (salvaRoster [⟨"S1".data, "Ana".data, "Li".data, [20, 22]⟩])

/-- A different one-record sample store, used for the confirmation claims. -/
def sampleStore2 : Option (List Nat) :=
  some (salvaRoster [⟨"S2".data, "Bob".data, "Re".data, [24, 26]⟩])

theorem findStudente_not_found (l : List Json) (m : List Char)
    (h : ∀ s ∈ l, ∃ kvs, s = Json.obj kvs ∧ matchesMatricola kvs m = false) :
    findStudente l m = some none := by
  induction l with
  | nil => rfl
  | cons x xs ih =>
    obtain ⟨kvs, rfl, hm⟩ := h _ (List.mem_cons_self x xs)
    simp [findStudente, hm, ih (fun s hs => h s (List.mem_cons_of_mem _ hs))]

theorem findStudente_found (l : List Json) (m : List Char) (i : Nat)
    (kvs : List (List Char × Json))
    (hi : l.get? i = some (.obj kvs)) (hm : matchesMatricola kvs m = true)
    (hpre : ∀ j, j < i → ∃ kvs2, l.get? j = some (.obj kvs2) ∧ matchesMatricola kvs2 m = false) :
    findStudente l m = some (some i) := by
  induction l generalizing i with
  | nil => simp at hi
  | cons x xs ih =>
    cases i with
    | zero =>
      simp only [List.get?] at hi
      obtain rfl : x = Json.obj kvs := by injection hi
      simp [findStudente, hm]
    | succ n =>
      obtain ⟨kvs0, hx, hm0⟩ := hpre 0 (Nat.succ_pos n)
      simp only [List.get?] at hx
      obtain rfl : x = Json.obj kvs0 := by injection hx
      have ih' := ih n hi (fun j hj => hpre (j + 1) (Nat.succ_lt_succ hj))
      simp [findStudente, hm0, ih']

/-- C1 (amended): the load operation is fail-open for a missing file and for
content that decodes as text but is not valid JSON — in those cases it
returns the empty roster without raising; but content that is not valid
UTF-8 raises an uncaught `UnicodeDecodeError` (result `none`), because the
`except` clause catches only `json.JSONDecodeError` and `FileNotFoundError`. -/
theorem leggi_fail_open (bytes : List Nat) (s : List Char) :
    leggi_studenti_da_file none = some (.arr []) ∧
    (utf8Decode bytes = some s → parseJson s = none →
      leggi_studenti_da_file (some bytes) = some (.arr [])) ∧
    (utf8Decode bytes = none → leggi_studenti_da_file (some bytes) = none) := by
  refine ⟨rfl, fun h1 h2 => ?_, fun h1 => ?_⟩
  · simp [leggi_studenti_da_file, h1, h2]
  · simp [leggi_studenti_da_file, h1]

/-- C1 witness: a missing file and a syntactically malformed (but UTF-8
decodable) file both load as the empty roster, without raising. -/
theorem leggi_fail_open_witness :
    leggi_studenti_da_file none = some (.arr []) ∧
    leggi_studenti_da_file (some (utf8Encode ("nonsense".data))) = some (.arr []) :=
  ⟨(leggi_fail_open [] []).1, (leggi_fail_open _ ("nonsense".data)).2.1 rfl rfl⟩

/-- C1 counterexample: the byte `0xFF` is not valid JSON content, yet loading
it does not return an empty roster — the `UnicodeDecodeError` raised while
decoding the file escapes `leggi_studenti_da_file` (modelled by `none`),
contradicting the claim that load never raises for malformed content. -/
theorem leggi_utf8_counterexample :
    leggi_studenti_da_file (some [255]) = none ∧
    leggi_studenti_da_file (some [255]) ≠ some (.arr []) :=
  ⟨rfl, fun h => Option.noConfusion h⟩

/-- C5: whenever the parsed grade sequence is empty, `aggiungi_studente`
aborts with `NoValidGrades` for every store and every identity input: the
store is returned unchanged and nothing is appended or persisted (the store
is not even read). -/
theorem aggiungi_studente_no_valid_grades (store : Option (List Nat))
    (mIn nIn cIn vIn : List Char) (h : parseGradeList vIn = []) :
    aggiungi_studente store mIn nIn cIn vIn = some (store, .noValidGrades) := by
  simp [aggiungi_studente, h]

/-- C5 witness: `raw_grades = ""` parses to no grades, and the operation
leaves the store untouched and reports `NoValidGrades`. -/
theorem aggiungi_studente_no_valid_grades_witness :
    parseGradeList ("".data) = [] ∧
    aggiungi_studente sampleStore ("S9".data) ("Eva".data) ("Rossi".data) ("".data) =
      some (sampleStore, .noValidGrades) :=
  ⟨rfl, aggiungi_studente_no_valid_grades sampleStore _ _ _ _ rfl⟩

/-- C10: when the store file holds syntactically valid JSON, the load
operation returns the decoded value as-is, whatever its top-level type — no
check forces it to be a list, so callers receive the unvalidated value. -/
theorem leggi_returns_decoded_value (bytes : List Nat) (s : List Char) (j : Json)
    (h1 : utf8Decode bytes = some s) (h2 : parseJson s = some j) :
    leggi_studenti_da_file (some bytes) = some j := by
  simp [leggi_studenti_da_file, h1, h2]

/-- C10 witness: a file holding the JSON number `42` loads as the number
itself, not as an empty roster. -/
theorem leggi_returns_decoded_value_witness :
    leggi_studenti_da_file (some (utf8Encode ("42".data))) = some (.intVal 42) :=
  leggi_returns_decoded_value _ ("42".data) _ rfl rfl

theorem foldl_pyAdd_rats (qs : List ℚ) (a : ℚ) :
    List.foldl pyAdd (.rat a) (qs.map PyNum.rat) = .rat (a + qs.sum) := by
  induction qs generalizing a with
  | nil => simp
  | cons q qs ih => simp [pyAdd, ih, add_assoc]

/-- C3: `calcola_media` computes the arithmetic mean of exactly the elements
satisfying `isinstance(v, (int, float))`, dropping the non-numeric ones, and
yields `0.0` when no numeric element remains — in particular on the empty
list and on lists of only non-numeric values.  The mean statement covers the
finite numerics (`PyNum.rat` values: ints, finite floats and bools, the last
counting as `1`/`0` since Python `bool` is an `int` subclass); the IEEE
special values keep their absorbing behaviour in `pySum`/`pyDivNat`. -/
theorem calcola_media_spec (voti : List Json) :
    (voti.filter isNumericJson = [] → calcola_media voti = .rat 0) ∧
    (∀ qs : List ℚ, (voti.filter isNumericJson).map pyNumOf = qs.map PyNum.rat →
      calcola_media voti = .rat (qs.sum / (qs.length : ℚ))) := by
  constructor
  · intro h
    simp [calcola_media, h]
  · intro qs hqs
    have hlen : (voti.filter isNumericJson).length = qs.length := by
      have := congrArg List.length hqs
      simpa using this
    unfold calcola_media
    by_cases hemp : (voti.filter isNumericJson).isEmpty
    · have h0 : voti.filter isNumericJson = [] := by
        simpa [List.isEmpty_iff] using hemp
      have : qs = [] := by
        have := hqs.symm
        rw [h0] at this
        simpa using this
      simp [hemp, this]
    · have hsum : pySum ((voti.filter isNumericJson).map pyNumOf) = .rat qs.sum := by
        rw [hqs]
        simpa [pySum] using foldl_pyAdd_rats qs 0
      simp [hemp, hsum, pyDivNat, hlen]

/-- C3 witness: on a mixed list the mean is taken over the numeric subset
only — `[20, "x", 2.5, True, None, []]` averages to `(20 + 2.5 + 1)/3`. -/
theorem calcola_media_spec_witness :
    calcola_media [.intVal 20, .str ("x".data), .floatVal (5 / 2), .bool true, .null, .arr []]
      = .rat (47 / 6) := by
  have h := (calcola_media_spec
      [.intVal 20, .str ("x".data), .floatVal (5 / 2), .bool true, .null, .arr []]).2
      [20, 5 / 2, 1] (by norm_num [isNumericJson, pyNumOf])
  rw [h]
  norm_num

/-- C9 (amended): the listing projection of a record computes the shown
fields via dictionary `get` with default `'N/D'` (not `"N/A"`) for each of
`matricola`, `nome`, `cognome`, and the average of the record's `voti`
(default `[]`) via `calcola_media`.  The projection takes no store and
returns no store: it mutates and persists nothing. -/
theorem riga_spec (kvs : List (List Char × Json)) (elems : List Json)
    (hvoti : pyIter ((objGet kvs ("voti".data)).getD (.arr [])) = some elems) :
    riga (.obj kvs) = some ((objGet kvs ("matricola".data)).getD (.str ("N/D".data)),
      (objGet kvs ("nome".data)).getD (.str ("N/D".data)),
      (objGet kvs ("cognome".data)).getD (.str ("N/D".data)),
      calcola_media elems) := by
  simp [riga, hvoti]

/-- C9 witness: a record with every field absent is shown as
`("N/D", "N/D", "N/D", 0.0)` and the listing of such a record does not
crash. -/
theorem riga_spec_witness :
    riga (.obj []) =
      some (.str ("N/D".data), .str ("N/D".data), .str ("N/D".data), .rat 0) := by
  simpa using riga_spec [] [] rfl

/-- C9 counterexample: the substitution string the code uses for absent
fields is `'N/D'`, not `"N/A"` as the claim states — already on the empty
record every displayed identity field is `"N/D"`. -/
theorem riga_nd_counterexample :
    riga (.obj []) =
      some (.str ("N/D".data), .str ("N/D".data), .str ("N/D".data), .rat 0) ∧
    ("N/D".data) ≠ ("N/A".data) :=
  ⟨rfl, by decide⟩

theorem splitComma_subset : ∀ (raw : List Char), ∀ p ∈ splitComma raw, ∀ c ∈ p, c ∈ raw := by
  intro raw
  induction raw with
  | nil => simp [splitComma]
  | cons a r ih =>
    intro p hp c hc
    by_cases ha : a = ','
    · subst ha
      simp only [splitComma, if_true, eq_self_iff_true, List.mem_cons] at hp
      rcases hp with rfl | hp
      · simp at hc
      · exact List.mem_cons_of_mem _ (ih p hp c hc)
    · cases hsp : splitComma r with
      | nil =>
        simp only [splitComma, ha, if_false, hsp, List.mem_singleton] at hp
        subst hp
        simp only [List.mem_singleton] at hc
        simp [hc]
      | cons q qs =>
        simp only [splitComma, ha, if_false, hsp, List.mem_cons] at hp
        rcases hp with rfl | hp
        · rcases List.mem_cons.mp hc with rfl | hc2
          · exact List.mem_cons_self _ _
          · exact List.mem_cons_of_mem _
              (ih q (hsp ▸ List.mem_cons_self q qs) c hc2)
        · exact List.mem_cons_of_mem _
            (ih p (hsp ▸ List.mem_cons_of_mem _ hp) c hc)

theorem mem_dropWsLeft : ∀ (s : List Char), ∀ c ∈ dropWsLeft s, c ∈ s := by
  intro s
  induction s with
  | nil => simp [dropWsLeft]
  | cons a r ih =>
    intro c hc
    by_cases ha : pyWs a
    · simp only [dropWsLeft, if_pos ha] at hc
      exact List.mem_cons_of_mem _ (ih c hc)
    · simpa [dropWsLeft, ha] using hc

theorem mem_pyStrip (s : List Char) : ∀ c ∈ pyStrip s, c ∈ s := by
  intro c hc
  unfold pyStrip at hc
  have h1 := mem_dropWsLeft _ c hc
  rw [List.mem_reverse] at h1
  have h2 := mem_dropWsLeft _ c h1
  rwa [List.mem_reverse] at h2

theorem pyWs_false_of_digit (c : Char) (h : isAsciiDigit c = true) : pyWs c = false := by
  simp only [isAsciiDigit, Bool.and_eq_true, decide_eq_true_eq] at h
  simp only [pyWs, Bool.or_eq_false_iff, decide_eq_false_iff_not]
  refine ⟨⟨⟨⟨⟨?_, ?_⟩, ?_⟩, ?_⟩, ?_⟩, ?_⟩ <;>
    · rintro rfl
      revert h
      decide

theorem dropWsLeft_eq_self (s : List Char) (h : ∀ c ∈ s, pyWs c = false) :
    dropWsLeft s = s := by
  cases s with
  | nil => rfl
  | cons a r => simp [dropWsLeft, h a (List.mem_cons_self a r)]

theorem pyStrip_eq_self (s : List Char) (h : ∀ c ∈ s, pyWs c = false) : pyStrip s = s := by
  unfold pyStrip
  rw [dropWsLeft_eq_self s.reverse (fun c hc => h c (List.mem_reverse.mp hc)),
    List.reverse_reverse, dropWsLeft_eq_self s h]

theorem digitsUnd_digits (s : List Char) (h : ∀ c ∈ s, isAsciiDigit c = true) :
    ∀ acc, digitsUnd s acc = some (s.foldl (fun a c => a * 10 + digitVal c) acc) := by
  induction s with
  | nil => intro acc; rfl
  | cons c r ih =>
    intro acc
    unfold digitsUnd
    rw [if_pos (h c (List.mem_cons_self c r)), List.foldl_cons]
    exact ih (fun d hd => h d (List.mem_cons_of_mem _ hd)) _

theorem pyInt_digits (s : List Char) (hne : s ≠ []) (h : ∀ c ∈ s, isAsciiDigit c = true) :
    pyInt s = some ((digitsVal s : Nat) : Int) := by
  have hstrip : pyStrip s = s :=
    pyStrip_eq_self s (fun c hc => pyWs_false_of_digit c (h c hc))
  obtain ⟨d, r, rfl⟩ : ∃ d r, s = d :: r := by
    cases s with
    | nil => exact absurd rfl hne
    | cons d r => exact ⟨d, r, rfl⟩
  have hd := h d (List.mem_cons_self d r)
  have hdp : d ≠ '+' := by rintro rfl; revert hd; decide
  have hdm : d ≠ '-' := by rintro rfl; revert hd; decide
  unfold pyInt
  rw [hstrip]
  simp [hdp, hdm, hd, digitsUnd_digits _ h, digitsVal]

theorem pyIsDigitChar_ascii (c : Char) (hc : c.toNat < 128) :
    pyIsDigitChar c = isAsciiDigit c := by
  have hall : (['⁰', '¹', '²', '³', '⁴', '⁵', '⁶', '⁷', '⁸', '⁹',
      '₀', '₁', '₂', '₃', '₄', '₅', '₆', '₇', '₈', '₉'].any (fun d => c == d)) = false := by
    rw [List.any_eq_false]
    intro d hd
    simp only [beq_iff_eq]
    rintro rfl
    fin_cases hd <;> exact absurd hc (by decide)
  unfold pyIsDigitChar
  rw [hall, Bool.or_false]

theorem list_all_congr (l : List Char) (f g : Char → Bool) (h : ∀ x ∈ l, f x = g x) :
    l.all f = l.all g := by
  induction l with
  | nil => rfl
  | cons x xs ih =>
    simp only [List.all_cons, h x (List.mem_cons_self x xs)]
    rw [ih (fun y hy => h y (List.mem_cons_of_mem _ hy))]

theorem parseGradeListAux_ascii (ps : List (List Char))
    (hps : ∀ p ∈ ps, ∀ c ∈ p, c.toNat < 128) :
    parseGradeListAux ps = some (ps.filterMap specPiece) := by
  induction ps with
  | nil => rfl
  | cons p ps ih =>
    have ih' := ih (fun q hq c hc => hps q (List.mem_cons_of_mem _ hq) c hc)
    have hs128 : ∀ c ∈ pyStrip p, c.toNat < 128 :=
      fun c hc => hps p (List.mem_cons_self p ps) c (mem_pyStrip p c hc)
    have hdig : pyIsdigitStr (pyStrip p) =
        (!(pyStrip p).isEmpty && (pyStrip p).all isAsciiDigit) := by
      unfold pyIsdigitStr
      rw [list_all_congr _ _ _ (fun c hc => pyIsDigitChar_ascii c (hs128 c hc))]
    unfold parseGradeListAux
    cases hcase : pyIsdigitStr (pyStrip p) with
    | false =>
      have hspec : specPiece p = none := by
        unfold specPiece
        have hff : (!(pyStrip p).isEmpty && (pyStrip p).all isAsciiDigit) = false :=
          hdig ▸ hcase
        rw [Bool.and_eq_false_iff] at hff
        refine if_neg (fun hcond => ?_)
        rcases hff with hff | hff
        · rw [Bool.not_eq_false', List.isEmpty_iff] at hff
          exact hcond.1 hff
        · exact absurd (List.all_eq_true.mpr fun c hc => hcond.2.1 c hc) (by simp [hff])
      rw [if_neg (by simp [hcase]), ih']
      simp [List.filterMap_cons, hspec]
    | true =>
      have hboth := hdig ▸ hcase
      rw [Bool.and_eq_true] at hboth
      have hne : pyStrip p ≠ [] := by
        have h1 := hboth.1
        simpa [List.isEmpty_iff] using h1
      have hall : ∀ c ∈ pyStrip p, isAsciiDigit c = true := by
        have h2 := hboth.2
        simpa [List.all_eq_true] using h2
      have hint := pyInt_digits (pyStrip p) hne hall
      rw [if_pos (by simp [hcase])]
      simp only [hint]
      by_cases hrange : 18 ≤ digitsVal (pyStrip p) ∧ digitsVal (pyStrip p) ≤ 30
      · have hirange : 18 ≤ ((digitsVal (pyStrip p) : Nat) : Int) ∧
            ((digitsVal (pyStrip p) : Nat) : Int) ≤ 30 :=
          ⟨by exact_mod_cast hrange.1, by exact_mod_cast hrange.2⟩
        have hspec : specPiece p = some ((digitsVal (pyStrip p) : Nat) : Int) := by
          unfold specPiece
          exact if_pos ⟨hne, hall, hrange.1, hrange.2⟩
        rw [if_pos hirange, ih']
        simp [List.filterMap_cons, hspec]
      · have hirange : ¬ (18 ≤ ((digitsVal (pyStrip p) : Nat) : Int) ∧
            ((digitsVal (pyStrip p) : Nat) : Int) ≤ 30) := by
          intro hcond
          exact hrange ⟨by exact_mod_cast hcond.1, by exact_mod_cast hcond.2⟩
        have hspec : specPiece p = none := by
          unfold specPiece
          exact if_neg (fun hcond => hrange ⟨hcond.2.2.1, hcond.2.2.2⟩)
        rw [if_neg hirange, ih']
        simp [List.filterMap_cons, hspec]

/-- C4 (amended): for raw inputs of ASCII characters, grade-list parsing
behaves exactly as the claim states — split on commas, trim, keep a piece's
value iff the trimmed piece is all decimal digits with value in [18, 30],
each non-conforming piece dropped individually.  The amendment: a piece may
also contain a character that `str.isdigit` accepts but `int` rejects (such
as `'²'`); then the comprehension raises `ValueError` and the whole result
collapses to `[]`, so such a piece is not dropped individually.  ASCII inputs
exclude that case. -/
theorem parseGradeList_ascii (raw : List Char) (hascii : ∀ c ∈ raw, c.toNat < 128) :
    parseGradeList raw = specGradeList raw := by
  unfold parseGradeList specGradeList
  rw [parseGradeListAux_ascii (splitComma raw)
    (fun p hp c hc => hascii c (splitComma_subset raw p hp c hc))]
  rfl

/-- C4 witness: the claim's own example — `"24, bad, 17, 31, 26"` parses to
`[24, 26]` (both in the code and in the spec-side definition), and
`"24,26,30"` parses to `[24, 26, 30]`. -/
theorem parseGradeList_ascii_witness :
    (∀ c ∈ ("24, bad, 17, 31, 26".data), c.toNat < 128) ∧
    parseGradeList ("24, bad, 17, 31, 26".data) = [24, 26] ∧
    specGradeList ("24, bad, 17, 31, 26".data) = [24, 26] ∧
    parseGradeList ("24,26,30".data) = [24, 26, 30] := by
  refine ⟨by decide, ?_, by decide, by decide⟩
  rw [parseGradeList_ascii _ (by decide)]
  decide

/-- C4 counterexample: on the input `"24,²"` the piece `"²"` does not consist
of decimal digits, so by the claim it should be dropped individually, giving
`[24]` (as the spec-side definition does); but `'²'.isdigit()` is true while
`int('²')` raises, the `ValueError` aborts the whole comprehension, and the
code yields `[]` — the valid piece `"24"` is lost with it. -/
theorem parseGradeList_counterexample :
    parseGradeList ("24,²".data) = [] ∧ specGradeList ("24,²".data) = [24] ∧
    ([] : List Int) ≠ [24] :=
  ⟨by decide, by decide, by decide⟩

/-- C6: when no record matches the requested id, `aggiungi_voto` reports
`StudentNotFound` and returns before any write: the persisted bytes are the
very bytes it started from.  When a match exists, the record acted on is the
first matching one in roster order: the grade lands in that record's `voti`
and every other record is untouched. -/
theorem aggiungi_voto_spec (store : Option (List Nat)) (mIn vIn : List Char)
    (l : List Json) (hload : leggi_studenti_da_file store = some (.arr l)) :
    ((∀ s ∈ l, ∃ kvs, s = Json.obj kvs ∧ matchesMatricola kvs (pyStrip mIn) = false) →
      aggiungi_voto store mIn vIn = some (store, .studentNotFound)) ∧
    (∀ i kvs vs voto,
      l.get? i = some (.obj kvs) →
      matchesMatricola kvs (pyStrip mIn) = true →
      (∀ j, j < i → ∃ kvs2, l.get? j = some (.obj kvs2) ∧
        matchesMatricola kvs2 (pyStrip mIn) = false) →
      pyInt (pyStrip vIn) = some voto → 18 ≤ voto → voto ≤ 30 →
      objGet kvs ("voti".data) = some (.arr vs) →
      aggiungi_voto store mIn vIn =
        some (some (salvaBytes (.arr (l.set i (.obj (objSet kvs ("voti".data)
          (.arr (vs ++ [.intVal voto]))))))), .added)) := by
  constructor
  · intro hnone
    unfold aggiungi_voto
    simp only [hload, findStudente_not_found l _ hnone]
  · intro i kvs vs voto hi hm hpre hvint h18 h30 hvoti
    unfold aggiungi_voto
    simp only [hload, findStudente_found l _ i kvs hi hm hpre, hvint]
    rw [if_pos ⟨h18, h30⟩]
    simp only [hi, hvoti]

/-- C6 witness: on the persisted §8 roster, targeting the absent id `S9`
leaves the store bytes untouched and reports `StudentNotFound`; targeting
`S1` with grade `25` updates exactly that record's grades to `[20, 22, 25]`. -/
theorem aggiungi_voto_spec_witness :
    aggiungi_voto sampleStore ("S9".data) ("25".data) =
      some (sampleStore, .studentNotFound) ∧
    aggiungi_voto sampleStore ("S1".data) ("25".data) =
      some (some (salvaRoster [⟨"S1".data, "Ana".data, "Li".data, [20, 22, 25]⟩]),
        .added) := by
  constructor
  · refine (aggiungi_voto_spec sampleStore ("S9".data) ("25".data)
        [studenteJson ⟨"S1".data, "Ana".data, "Li".data, [20, 22]⟩] rfl).1 ?_
    intro s hs
    rw [List.mem_singleton] at hs
    subst hs
    exact ⟨_, rfl, rfl⟩
  · have h := (aggiungi_voto_spec sampleStore ("S1".data) ("25".data)
        [studenteJson ⟨"S1".data, "Ana".data, "Li".data, [20, 22]⟩] rfl).2
        0 _ [.intVal 20, .intVal 22] 25 rfl rfl
        (fun j hj => absurd hj (Nat.not_lt_zero j)) rfl (by decide) (by decide) rfl
    rw [h]
    rfl

/-- C7 (amended): `cancella_studente` signals `EmptyRoster` on a roster of
zero records, `StudentNotFound` when no record matches (store bytes
unchanged), and otherwise removes the first matching record at its index —
preserving the relative order of the remaining records — and persists the
result, provided the in-operation confirmation reply, stripped and
lowercased, equals `"s"` (any other reply cancels; see the confirmation
claims). -/
theorem cancella_studente_spec (store : Option (List Nat)) (mIn confIn : List Char)
    (l : List Json) (hload : leggi_studenti_da_file store = some (.arr l)) :
    (l = [] → cancella_studente store mIn confIn = some (store, .emptyRoster)) ∧
    (l ≠ [] →
      (∀ s ∈ l, ∃ kvs, s = Json.obj kvs ∧ matchesMatricola kvs (pyStrip mIn) = false) →
      cancella_studente store mIn confIn = some (store, .studentNotFound)) ∧
    (∀ i kvs, l.get? i = some (.obj kvs) →
      matchesMatricola kvs (pyStrip mIn) = true →
      (∀ j, j < i → ∃ kvs2, l.get? j = some (.obj kvs2) ∧
        matchesMatricola kvs2 (pyStrip mIn) = false) →
      pyLower (pyStrip confIn) = ("s".data) →
      cancella_studente store mIn confIn =
        some (some (salvaBytes (.arr (l.take i ++ l.drop (i + 1)))), .deleted)) := by
  refine ⟨fun hnil => ?_, fun hne hnone => ?_, fun i kvs hi hm hpre hconf => ?_⟩
  · subst hnil
    unfold cancella_studente
    simp only [hload]
    rfl
  · unfold cancella_studente
    have htru : jsonTruthy (.arr l) = true := by
      simpa [jsonTruthy, List.isEmpty_iff] using hne
    simp only [hload, htru, findStudente_not_found l _ hnone]
    rfl
  · have hne : l ≠ [] := by
      rintro rfl
      simp at hi
    have htru : jsonTruthy (.arr l) = true := by
      simpa [jsonTruthy, List.isEmpty_iff] using hne
    unfold cancella_studente
    simp only [hload, htru, findStudente_found l _ i kvs hi hm hpre]
    rw [← List.eraseIdx_eq_take_drop_succ]
    simp only [hconf, if_pos rfl]
    rfl

/-- C7 witness: deleting the only record of a one-record roster (with the
confirmation given) persists an empty roster — the stored bytes become the
serialization of `[]`. -/
theorem cancella_studente_spec_witness :
    cancella_studente sampleStore ("S1".data) ("s".data) =
      some (some (salvaBytes (.arr [])), .deleted) := by
  have h := (cancella_studente_spec sampleStore ("S1".data) ("s".data)
      [studenteJson ⟨"S1".data, "Ana".data, "Li".data, [20, 22]⟩] rfl).2.2
      0 _ rfl rfl (fun j hj => absurd hj (Nat.not_lt_zero j)) rfl
  simpa using h

/-- C7 counterexample: on a non-empty roster whose only record matches, the
operation does not remove anything when the confirmation reply is `"n"` —
it returns `Cancelled` with the store bytes unchanged, while the claim
demands unconditional removal and an empty persisted roster. -/
theorem cancella_studente_counterexample :
    cancella_studente sampleStore ("S1".data) ("n".data) =
      some (sampleStore, .cancelled) ∧
    sampleStore ≠ some (salvaBytes (.arr [])) :=
  ⟨rfl, by decide⟩

/-- C8 (amended): the yes/no confirmation is part of `cancella_studente`
itself, asked after the match is found: with a matching record at index `i`,
the operation removes and persists exactly when the stripped, lowercased
reply equals `"s"`, and otherwise returns `Cancelled` leaving the store
bytes unchanged. -/
theorem cancella_conferma_spec (store : Option (List Nat)) (mIn confIn : List Char)
    (l : List Json) (i : Nat) (kvs : List (List Char × Json))
    (hload : leggi_studenti_da_file store = some (.arr l))
    (hi : l.get? i = some (.obj kvs))
    (hm : matchesMatricola kvs (pyStrip mIn) = true)
    (hpre : ∀ j, j < i → ∃ kvs2, l.get? j = some (.obj kvs2) ∧
      matchesMatricola kvs2 (pyStrip mIn) = false) :
    (pyLower (pyStrip confIn) = ("s".data) →
      cancella_studente store mIn confIn =
        some (some (salvaBytes (.arr (l.eraseIdx i))), .deleted)) ∧
    (pyLower (pyStrip confIn) ≠ ("s".data) →
      cancella_studente store mIn confIn = some (store, .cancelled)) := by
  have hne : l ≠ [] := by
    rintro rfl
    simp at hi
  have htru : jsonTruthy (.arr l) = true := by
    simpa [jsonTruthy, List.isEmpty_iff] using hne
  constructor
  · intro hconf
    unfold cancella_studente
    simp only [hload, htru, findStudente_found l _ i kvs hi hm hpre]
    simp only [hconf, if_pos rfl]
    rfl
  · intro hconf
    unfold cancella_studente
    simp only [hload, htru, findStudente_found l _ i kvs hi hm hpre]
    rw [if_neg hconf]
    rfl

/-- C8 witness: on a one-record roster with a matching id, the reply `" S "`
(strip + lowercase gives `"s"`) deletes and persists, while the reply `"x"`
cancels and leaves the bytes unchanged. -/
theorem cancella_conferma_spec_witness :
    cancella_studente sampleStore2 ("S2".data) (" S ".data) =
      some (some (salvaBytes (.arr [])), .deleted) ∧
    cancella_studente sampleStore2 ("S2".data) ("x".data) =
      some (sampleStore2, .cancelled) := by
  constructor
  · have h := (cancella_conferma_spec sampleStore2 ("S2".data) (" S ".data)
        [studenteJson ⟨"S2".data, "Bob".data, "Re".data, [24, 26]⟩] 0 _ rfl rfl rfl
        (fun j hj => absurd hj (Nat.not_lt_zero j))).1 rfl
    simpa using h
  · exact (cancella_conferma_spec sampleStore2 ("S2".data) ("x".data)
        [studenteJson ⟨"S2".data, "Bob".data, "Re".data, [24, 26]⟩] 0 _ rfl rfl rfl
        (fun j hj => absurd hj (Nat.not_lt_zero j))).2 (by decide)

/-- C8 counterexample: invoked on a non-empty roster with a matching id, the
operation does not perform the removal unconditionally: with reply `"no"` it
consults the in-operation confirmation and cancels, leaving the store
unchanged — the confirmation is inside `cancella_studente`, not in a layer
before it. -/
theorem cancella_conferma_counterexample :
    cancella_studente sampleStore2 ("S2".data) ("no".data) =
      some (sampleStore2, .cancelled) ∧
    sampleStore2 ≠ some (salvaBytes (.arr [])) :=
  ⟨rfl, by decide⟩

theorem utf8Decode_cons (b0 : Nat) (rest : List Nat) :
    utf8Decode (b0 :: rest) =
      if b0 < 0x80 then (utf8Decode rest).map (fun cs => Char.ofNat b0 :: cs)
      else if b0 < 0xC2 then none
      else if b0 < 0xE0 then
        match rest with
        | b1 :: r =>
          if 0x80 ≤ b1 ∧ b1 < 0xC0 then
            (utf8Decode r).map (fun cs => Char.ofNat ((b0 - 0xC0) * 64 + (b1 - 0x80)) :: cs)
          else none
        | [] => none
      else if b0 < 0xF0 then
        match rest with
        | b1 :: b2 :: r =>
          if 0x80 ≤ b1 ∧ b1 < 0xC0 ∧ 0x80 ≤ b2 ∧ b2 < 0xC0
              ∧ ¬(b0 = 0xE0 ∧ b1 < 0xA0) ∧ ¬(b0 = 0xED ∧ 0xA0 ≤ b1) then
            (utf8Decode r).map
              (fun cs => Char.ofNat ((b0 - 0xE0) * 4096 + (b1 - 0x80) * 64 + (b2 - 0x80)) :: cs)
          else none
        | _ => none
      else if b0 < 0xF5 then
        match rest with
        | b1 :: b2 :: b3 :: r =>
          if 0x80 ≤ b1 ∧ b1 < 0xC0 ∧ 0x80 ≤ b2 ∧ b2 < 0xC0 ∧ 0x80 ≤ b3 ∧ b3 < 0xC0
              ∧ ¬(b0 = 0xF0 ∧ b1 < 0x90) ∧ ¬(b0 = 0xF4 ∧ 0x90 ≤ b1) then
            (utf8Decode r).map
              (fun cs => Char.ofNat
                ((b0 - 0xF0) * 262144 + (b1 - 0x80) * 4096 + (b2 - 0x80) * 64 + (b3 - 0x80)) :: cs)
          else none
        | _ => none
      else none := by
  cases rest with
  | nil => rfl
  | cons b1 r =>
    cases r with
    | nil => rfl
    | cons b2 r2 =>
      cases r2 with
      | nil => rfl
      | cons b3 r3 => rfl

theorem utf8Decode_encChar (c : Char) (rest : List Nat) :
    utf8Decode (utf8EncChar c.toNat ++ rest) = (utf8Decode rest).map (fun cs => c :: cs) := by
  have hvalid : c.toNat < 0xD800 ∨ (0xDFFF < c.toNat ∧ c.toNat < 0x110000) := c.valid
  by_cases h1 : c.toNat < 0x80
  · unfold utf8EncChar
    rw [if_pos h1]
    show utf8Decode (c.toNat :: rest) = _
    rw [utf8Decode_cons, if_pos h1, Char.ofNat_toNat]
  · by_cases h2 : c.toNat < 0x800
    · unfold utf8EncChar
      rw [if_neg h1, if_pos h2]
      show utf8Decode ((0xC0 + c.toNat / 64) :: (0x80 + c.toNat % 64) :: rest) = _
      rw [utf8Decode_cons]
      have e1 : ¬ (0xC0 + c.toNat / 64 < 0x80) := by omega
      have e2 : ¬ (0xC0 + c.toNat / 64 < 0xC2) := by omega
      have e3 : 0xC0 + c.toNat / 64 < 0xE0 := by omega
      rw [if_neg e1, if_neg e2, if_pos e3]
      dsimp only
      have e4 : 0x80 ≤ 0x80 + c.toNat % 64 ∧ 0x80 + c.toNat % 64 < 0xC0 := by omega
      rw [if_pos e4]
      have hv : (0xC0 + c.toNat / 64 - 0xC0) * 64 + (0x80 + c.toNat % 64 - 0x80) = c.toNat := by
        omega
      rw [hv, Char.ofNat_toNat]
    · by_cases h3 : c.toNat < 0x10000
      · unfold utf8EncChar
        rw [if_neg h1, if_neg h2, if_pos h3]
        show utf8Decode ((0xE0 + c.toNat / 4096) :: (0x80 + c.toNat / 64 % 64)
          :: (0x80 + c.toNat % 64) :: rest) = _
        rw [utf8Decode_cons]
        have e1 : ¬ (0xE0 + c.toNat / 4096 < 0x80) := by omega
        have e2 : ¬ (0xE0 + c.toNat / 4096 < 0xC2) := by omega
        have e3 : ¬ (0xE0 + c.toNat / 4096 < 0xE0) := by omega
        have e4 : 0xE0 + c.toNat / 4096 < 0xF0 := by omega
        rw [if_neg e1, if_neg e2, if_neg e3, if_pos e4]
        dsimp only
        have e5 : 0x80 ≤ 0x80 + c.toNat / 64 % 64 ∧ 0x80 + c.toNat / 64 % 64 < 0xC0
            ∧ 0x80 ≤ 0x80 + c.toNat % 64 ∧ 0x80 + c.toNat % 64 < 0xC0
            ∧ ¬(0xE0 + c.toNat / 4096 = 0xE0 ∧ 0x80 + c.toNat / 64 % 64 < 0xA0)
            ∧ ¬(0xE0 + c.toNat / 4096 = 0xED ∧ 0xA0 ≤ 0x80 + c.toNat / 64 % 64) := by
          omega
        rw [if_pos e5]
        have hv : (0xE0 + c.toNat / 4096 - 0xE0) * 4096 + (0x80 + c.toNat / 64 % 64 - 0x80) * 64
            + (0x80 + c.toNat % 64 - 0x80) = c.toNat := by
          omega
        rw [hv, Char.ofNat_toNat]
      · unfold utf8EncChar
        rw [if_neg h1, if_neg h2, if_neg h3]
        show utf8Decode ((0xF0 + c.toNat / 262144) :: (0x80 + c.toNat / 4096 % 64)
          :: (0x80 + c.toNat / 64 % 64) :: (0x80 + c.toNat % 64) :: rest) = _
        rw [utf8Decode_cons]
        have e1 : ¬ (0xF0 + c.toNat / 262144 < 0x80) := by omega
        have e2 : ¬ (0xF0 + c.toNat / 262144 < 0xC2) := by omega
        have e3 : ¬ (0xF0 + c.toNat / 262144 < 0xE0) := by omega
        have e4 : ¬ (0xF0 + c.toNat / 262144 < 0xF0) := by omega
        have e5 : 0xF0 + c.toNat / 262144 < 0xF5 := by omega
        rw [if_neg e1, if_neg e2, if_neg e3, if_neg e4, if_pos e5]
        dsimp only
        have e6 : 0x80 ≤ 0x80 + c.toNat / 4096 % 64 ∧ 0x80 + c.toNat / 4096 % 64 < 0xC0
            ∧ 0x80 ≤ 0x80 + c.toNat / 64 % 64 ∧ 0x80 + c.toNat / 64 % 64 < 0xC0
            ∧ 0x80 ≤ 0x80 + c.toNat % 64 ∧ 0x80 + c.toNat % 64 < 0xC0
            ∧ ¬(0xF0 + c.toNat / 262144 = 0xF0 ∧ 0x80 + c.toNat / 4096 % 64 < 0x90)
            ∧ ¬(0xF0 + c.toNat / 262144 = 0xF4 ∧ 0x90 ≤ 0x80 + c.toNat / 4096 % 64) := by
          omega
        rw [if_pos e6]
        have hv : (0xF0 + c.toNat / 262144 - 0xF0) * 262144
            + (0x80 + c.toNat / 4096 % 64 - 0x80) * 4096
            + (0x80 + c.toNat / 64 % 64 - 0x80) * 64 + (0x80 + c.toNat % 64 - 0x80)
            = c.toNat := by
          omega
        rw [hv, Char.ofNat_toNat]

theorem utf8Encode_cons (c : Char) (s : List Char) :
    utf8Encode (c :: s) = utf8EncChar c.toNat ++ utf8Encode s := rfl

theorem utf8Decode_encode (s : List Char) : utf8Decode (utf8Encode s) = some s := by
  induction s with
  | nil => rfl
  | cons c cs ih => rw [utf8Encode_cons, utf8Decode_encChar, ih]; rfl

theorem hexVal_hexDigitChar (v : Nat) (hv : v < 16) : hexVal (hexDigitChar v) = some v := by
  interval_cases v <;> decide

theorem hex4val_low (c : Char) (h : c.toNat < 0x20) :
    hex4val '0' '0' (hexDigitChar (c.toNat / 16)) (hexDigitChar (c.toNat % 16))
      = some c.toNat := by
  unfold hex4val
  rw [hexVal_hexDigitChar _ (by omega), hexVal_hexDigitChar _ (by omega)]
  simp only [show hexVal '0' = some 0 from rfl]
  congr 1
  omega

theorem escapeChar_length_pos (c : Char) : 1 ≤ (escapeChar c).length := by
  unfold escapeChar
  split_ifs <;> simp

theorem escapeStr_cons (c : Char) (cs : List Char) :
    escapeStr (c :: cs) = escapeChar c ++ escapeStr cs := rfl

theorem escapeStr_length (s : List Char) : s.length ≤ (escapeStr s).length := by
  induction s with
  | nil => simp [escapeStr]
  | cons c cs ih =>
    rw [escapeStr_cons, List.length_append, List.length_cons]
    have := escapeChar_length_pos c
    omega

theorem parseStringBodyF_escape (s : List Char) : ∀ (r : List Char) (f : Nat),
    s.length + 1 ≤ f → parseStringBodyF f (escapeStr s ++ '"' :: r) = some (s, r) := by
  induction s with
  | nil =>
    intro r f hf
    obtain ⟨f, rfl⟩ : ∃ g, f = g + 1 := ⟨f - 1, by omega⟩
    rfl
  | cons c cs ih =>
    intro r f hf
    obtain ⟨f, rfl⟩ : ∃ g, f = g + 1 := ⟨f - 1, by omega⟩
    have hfc : cs.length + 1 ≤ f := by
      simp only [List.length_cons] at hf
      omega
    rw [escapeStr_cons, List.append_assoc]
    unfold escapeChar
    by_cases h1 : c = '"'
    · subst h1
      rw [if_pos rfl]
      rw [show parseStringBodyF (f + 1) (['\\', '"'] ++ (escapeStr cs ++ '"' :: r))
          = (parseStringBodyF f (escapeStr cs ++ '"' :: r)).map (fun p => ('"' :: p.1, p.2))
        from rfl, ih r f hfc]
      rfl
    · rw [if_neg h1]
      by_cases h2 : c = '\\'
      · subst h2
        rw [if_pos rfl]
        rw [show parseStringBodyF (f + 1) (['\\', '\\'] ++ (escapeStr cs ++ '"' :: r))
            = (parseStringBodyF f (escapeStr cs ++ '"' :: r)).map (fun p => ('\\' :: p.1, p.2))
          from rfl, ih r f hfc]
        rfl
      · rw [if_neg h2]
        by_cases h3 : c = '\x08'
        · subst h3
          rw [if_pos rfl]
          rw [show parseStringBodyF (f + 1) (['\\', 'b'] ++ (escapeStr cs ++ '"' :: r))
              = (parseStringBodyF f (escapeStr cs ++ '"' :: r)).map
                  (fun p => ('\x08' :: p.1, p.2))
            from rfl, ih r f hfc]
          rfl
        · rw [if_neg h3]
          by_cases h4 : c = '\x09'
          · subst h4
            rw [if_pos rfl]
            rw [show parseStringBodyF (f + 1) (['\\', 't'] ++ (escapeStr cs ++ '"' :: r))
                = (parseStringBodyF f (escapeStr cs ++ '"' :: r)).map
                    (fun p => ('\x09' :: p.1, p.2))
              from rfl, ih r f hfc]
            rfl
          · rw [if_neg h4]
            by_cases h5 : c = '\x0a'
            · subst h5
              rw [if_pos rfl]
              rw [show parseStringBodyF (f + 1) (['\\', 'n'] ++ (escapeStr cs ++ '"' :: r))
                  = (parseStringBodyF f (escapeStr cs ++ '"' :: r)).map
                      (fun p => ('\x0a' :: p.1, p.2))
                from rfl, ih r f hfc]
              rfl
            · rw [if_neg h5]
              by_cases h6 : c = '\x0c'
              · subst h6
                rw [if_pos rfl]
                rw [show parseStringBodyF (f + 1) (['\\', 'f'] ++ (escapeStr cs ++ '"' :: r))
                    = (parseStringBodyF f (escapeStr cs ++ '"' :: r)).map
                        (fun p => ('\x0c' :: p.1, p.2))
                  from rfl, ih r f hfc]
                rfl
              · rw [if_neg h6]
                by_cases h7 : c = '\x0d'
                · subst h7
                  rw [if_pos rfl]
                  rw [show parseStringBodyF (f + 1) (['\\', 'r'] ++ (escapeStr cs ++ '"' :: r))
                      = (parseStringBodyF f (escapeStr cs ++ '"' :: r)).map
                          (fun p => ('\x0d' :: p.1, p.2))
                    from rfl, ih r f hfc]
                  rfl
                · rw [if_neg h7]
                  by_cases h8 : c.toNat < 0x20
                  · rw [if_pos h8]
                    show parseStringBodyF (f + 1)
                      ('\\' :: 'u' :: '0' :: '0' :: hexDigitChar (c.toNat / 16)
                        :: hexDigitChar (c.toNat % 16) :: (escapeStr cs ++ '"' :: r)) = _
                    unfold parseStringBodyF
                    dsimp only
                    simp only [Char.reduceEq, reduceIte]
                    rw [hex4val_low c h8]
                    dsimp only
                    rw [if_neg (show ¬(0xD800 ≤ c.toNat ∧ c.toNat ≤ 0xDBFF) by omega),
                      if_neg (show ¬(0xDC00 ≤ c.toNat ∧ c.toNat ≤ 0xDFFF) by omega),
                      Char.ofNat_toNat, ih r f hfc]
                    rfl
                  · rw [if_neg h8]
                    show parseStringBodyF (f + 1) (c :: (escapeStr cs ++ '"' :: r)) = _
                    unfold parseStringBodyF
                    dsimp only
                    rw [if_neg h1, if_neg h2, if_neg h8, ih r f hfc]
                    rfl

theorem parseStringBody_escape (s r : List Char) :
    parseStringBody (escapeStr s ++ '"' :: r) = some (s, r) := by
  unfold parseStringBody
  apply parseStringBodyF_escape
  have := escapeStr_length s
  rw [List.length_append, List.length_cons]
  omega

theorem parseValue_congr (f : Nat) (s1 s2 : List Char) (h : skipWs s1 = skipWs s2) :
    parseValue f s1 = parseValue f s2 := by
  cases f with
  | zero => rfl
  | succ f =>
    unfold parseValue
    rw [h]

theorem parseElements_congr (f : Nat) (acc : List Json) (s1 s2 : List Char)
    (h : skipWs s1 = skipWs s2) : parseElements f acc s1 = parseElements f acc s2 := by
  cases f with
  | zero => rfl
  | succ f =>
    unfold parseElements
    rw [parseValue_congr f s1 s2 h]

theorem skipWs_not (c : Char) (r : List Char) (h : jsonWs c = false) :
    skipWs (c :: r) = c :: r := by
  simp [skipWs, h]

theorem skipWs_replicate (n : Nat) (r : List Char) :
    skipWs (List.replicate n ' ' ++ r) = skipWs r := by
  induction n with
  | zero => rfl
  | succ n ih => simpa [skipWs, jsonWs] using ih

theorem skipWs_nlInd (lvl : Nat) (r : List Char) : skipWs (nlInd lvl ++ r) = skipWs r := by
  show skipWs ('\n' :: (List.replicate (2 * lvl) ' ' ++ r)) = skipWs r
  rw [show skipWs ('\n' :: (List.replicate (2 * lvl) ' ' ++ r))
      = skipWs (List.replicate (2 * lvl) ' ' ++ r) by simp [skipWs, jsonWs],
    skipWs_replicate]

theorem isAsciiDigit_digitCharOf (m : Nat) (hm : m < 10) :
    isAsciiDigit (digitCharOf m) = true := by
  interval_cases m <;> decide

theorem digitVal_digitCharOf (m : Nat) (hm : m < 10) : digitVal (digitCharOf m) = m := by
  interval_cases m <;> decide

theorem digitCharOf_ne_zero (m : Nat) (h1 : 1 ≤ m) (hm : m < 10) : digitCharOf m ≠ '0' := by
  interval_cases m <;> decide

theorem digit_char_class (c : Char) (h : isAsciiDigit c = true) :
    jsonWs c = false ∧ c ≠ '"' ∧ c ≠ '{' ∧ c ≠ '[' ∧ c ≠ 'n' ∧ c ≠ 't' ∧ c ≠ 'f'
      ∧ c ≠ 'N' ∧ c ≠ 'I' ∧ c ≠ '-' ∧ c ≠ '.' ∧ c ≠ 'e' ∧ c ≠ 'E' := by
  refine ⟨?_, ?_, ?_, ?_, ?_, ?_, ?_, ?_, ?_, ?_, ?_, ?_, ?_⟩
  · simp only [jsonWs, Bool.or_eq_false_iff, decide_eq_false_iff_not]
    refine ⟨⟨⟨?_, ?_⟩, ?_⟩, ?_⟩ <;> (rintro rfl; revert h; decide)
  all_goals (rintro rfl; revert h; decide)

theorem digitsVal_append_singleton (xs : List Char) (d : Char) :
    digitsVal (xs ++ [d]) = digitsVal xs * 10 + digitVal d := by
  simp [digitsVal, List.foldl_append]

theorem natToCharsAux_spec : ∀ fuel n, n < fuel →
    (∀ c ∈ natToCharsAux fuel n, isAsciiDigit c = true) ∧
    digitsVal (natToCharsAux fuel n) = n ∧
    ∃ d ds, natToCharsAux fuel n = d :: ds ∧ (1 ≤ n → d ≠ '0') := by
  intro fuel
  induction fuel with
  | zero => intro n h; omega
  | succ fuel ih =>
    intro n h
    unfold natToCharsAux
    by_cases hn : n < 10
    · rw [if_pos hn]
      refine ⟨?_, ?_, digitCharOf n, [], rfl, fun h1 => digitCharOf_ne_zero n h1 hn⟩
      · intro c hc
        rw [List.mem_singleton] at hc
        subst hc
        exact isAsciiDigit_digitCharOf n hn
      · show digitsVal [digitCharOf n] = n
        simp [digitsVal, digitVal_digitCharOf n hn]
    · rw [if_neg hn]
      obtain ⟨hall, hval, d, ds, heq, hne⟩ := ih (n / 10) (by omega)
      refine ⟨?_, ?_, d, ds ++ [digitCharOf (n % 10)], by rw [heq]; rfl,
        fun _ => hne (by omega)⟩
      · intro c hc
        rcases List.mem_append.mp hc with hc | hc
        · exact hall c hc
        · rw [List.mem_singleton] at hc
          subst hc
          exact isAsciiDigit_digitCharOf _ (by omega)
      · rw [digitsVal_append_singleton, hval, digitVal_digitCharOf _ (by omega)]
        omega

theorem natToChars_all (n : Nat) : ∀ c ∈ natToChars n, isAsciiDigit c = true :=
  (natToCharsAux_spec (n + 1) n (by omega)).1

theorem digitsVal_natToChars (n : Nat) : digitsVal (natToChars n) = n :=
  (natToCharsAux_spec (n + 1) n (by omega)).2.1

theorem natToChars_head (n : Nat) :
    ∃ d ds, natToChars n = d :: ds ∧ (1 ≤ n → d ≠ '0') :=
  (natToCharsAux_spec (n + 1) n (by omega)).2.2

/-- The input right after a serialized number: its head, if any, extends
neither the digit run nor a fraction nor an exponent. -/
def NumBoundary (r : List Char) : Prop :=
  ∀ c, r.head? = some c → isAsciiDigit c = false ∧ c ≠ '.' ∧ c ≠ 'e' ∧ c ≠ 'E'

theorem takeDigits_append (ds r : List Char) (hds : ∀ c ∈ ds, isAsciiDigit c = true)
    (hr : ∀ c, r.head? = some c → isAsciiDigit c = false) :
    takeDigits (ds ++ r) = (ds, r) := by
  induction ds with
  | nil =>
    cases r with
    | nil => rfl
    | cons c r' => simp [takeDigits, hr c rfl]
  | cons d ds' ih =>
    have hih := ih (fun c hc => hds c (List.mem_cons_of_mem _ hc))
    simp [takeDigits, hds d (List.mem_cons_self d ds'), hih]

theorem parseIntPart_natToChars (n : Nat) (r : List Char)
    (hr : ∀ c, r.head? = some c → isAsciiDigit c = false) :
    parseIntPart (natToChars n ++ r) = some (natToChars n, r) := by
  by_cases hn : n = 0
  · subst hn
    rfl
  · obtain ⟨d, ds, heq, hne⟩ := natToChars_head n
    have hd : isAsciiDigit d = true := natToChars_all n d (heq ▸ List.mem_cons_self d ds)
    have hds : ∀ c ∈ ds, isAsciiDigit c = true :=
      fun c hc => natToChars_all n c (heq ▸ List.mem_cons_of_mem _ hc)
    rw [heq]
    show parseIntPart (d :: (ds ++ r)) = some (d :: ds, r)
    unfold parseIntPart
    dsimp only
    rw [if_neg (hne (by omega)), if_pos hd, takeDigits_append ds r hds hr]

theorem parseFrac_id (r : List Char) (h : ∀ c, r.head? = some c → c ≠ '.') :
    parseFrac r = ([], r) := by
  cases r with
  | nil => rfl
  | cons c r' => simp [parseFrac, h c rfl]

theorem parseExp_none (r : List Char) (h : ∀ c, r.head? = some c → c ≠ 'e' ∧ c ≠ 'E') :
    parseExp r = none := by
  cases r with
  | nil => rfl
  | cons c r' => simp [parseExp, (h c rfl).1, (h c rfl).2]

theorem parseNumBody_nat (neg : Bool) (m : Nat) (r : List Char) (hr : NumBoundary r) :
    parseNumBody neg (natToChars m ++ r) =
      some (.intVal (if neg then -(m : Int) else (m : Int)), r) := by
  unfold parseNumBody
  rw [parseIntPart_natToChars m r (fun c hc => (hr c hc).1)]
  dsimp only
  rw [parseFrac_id r (fun c hc => (hr c hc).2.1),
    parseExp_none r (fun c hc => ⟨(hr c hc).2.2.1, (hr c hc).2.2.2⟩)]
  simp [digitsVal_natToChars]

theorem parseNumber_intChars (n : Int) (r : List Char) (hr : NumBoundary r) :
    parseNumber (intChars n ++ r) = some (.intVal n, r) := by
  by_cases hn : n < 0
  · unfold intChars
    rw [if_pos hn]
    show parseNumber ('-' :: (natToChars n.natAbs ++ r)) = _
    unfold parseNumber
    dsimp only
    rw [if_pos rfl, parseNumBody_nat true n.natAbs r hr]
    simp only [if_pos rfl, Option.some.injEq, Prod.mk.injEq, Json.intVal.injEq]
    refine ⟨?_, trivial⟩
    rw [if_pos trivial]
    omega
  · unfold intChars
    rw [if_neg hn]
    obtain ⟨d, ds, heq, _⟩ := natToChars_head n.toNat
    have hd : isAsciiDigit d = true := natToChars_all n.toNat d (heq ▸ List.mem_cons_self d ds)
    rw [heq]
    show parseNumber (d :: (ds ++ r)) = _
    unfold parseNumber
    dsimp only
    rw [if_neg (digit_char_class d hd).2.2.2.2.2.2.2.2.2.1]
    rw [show d :: (ds ++ r) = natToChars n.toNat ++ r by rw [heq]; rfl,
      parseNumBody_nat false n.toNat r hr]
    simp only [Bool.false_eq_true, if_false, Option.some.injEq, Prod.mk.injEq,
      Json.intVal.injEq]
    exact ⟨by omega, trivial⟩

theorem numBoundary_cons (c : Char) (X : List Char)
    (h : isAsciiDigit c = false ∧ c ≠ '.' ∧ c ≠ 'e' ∧ c ≠ 'E') : NumBoundary (c :: X) := by
  intro d hd
  injection hd with h'
  subst h'
  exact h

theorem parseValue_dumpStr (f : Nat) (s r : List Char) :
    parseValue (f + 1) (dumpStr s ++ r) = some (.str s, r) := by
  show parseValue (f + 1) ('"' :: ((escapeStr s ++ ['"']) ++ r)) = _
  unfold parseValue
  rw [skipWs_not '"' _ (by decide)]
  dsimp only
  simp only [Char.reduceEq, reduceIte]
  rw [List.append_assoc, List.singleton_append, parseStringBody_escape]
  rfl

theorem parseValue_intChars (f : Nat) (n : Int) (r : List Char) (hr : NumBoundary r) :
    parseValue (f + 1) (intChars n ++ r) = some (.intVal n, r) := by
  by_cases hn : n < 0
  · have hic : intChars n = '-' :: natToChars n.natAbs := by
      unfold intChars
      rw [if_pos hn]
    rw [hic]
    show parseValue (f + 1) ('-' :: (natToChars n.natAbs ++ r)) = _
    unfold parseValue
    rw [skipWs_not '-' _ (by decide)]
    dsimp only
    simp only [Char.reduceEq, reduceIte]
    rw [show '-' :: (natToChars n.natAbs ++ r) = intChars n ++ r by rw [hic]; rfl,
      parseNumber_intChars n r hr]
  · have hic : intChars n = natToChars n.toNat := by
      unfold intChars
      rw [if_neg hn]
    obtain ⟨d, ds, heq, _⟩ := natToChars_head n.toNat
    have hd : isAsciiDigit d = true :=
      natToChars_all n.toNat d (heq ▸ List.mem_cons_self d ds)
    have hcls := digit_char_class d hd
    rw [hic, heq]
    show parseValue (f + 1) (d :: (ds ++ r)) = _
    unfold parseValue
    rw [skipWs_not d _ hcls.1]
    dsimp only
    rw [if_neg hcls.2.1, if_neg (by rintro rfl; revert hd; decide),
      if_neg (by rintro rfl; revert hd; decide), if_neg hcls.2.2.2.2.1,
      if_neg hcls.2.2.2.2.2.1, if_neg hcls.2.2.2.2.2.2.1, if_neg hcls.2.2.2.2.2.2.2.1,
      if_neg hcls.2.2.2.2.2.2.2.2.1]
    rw [show d :: (ds ++ r) = intChars n ++ r by rw [hic, heq]; rfl,
      parseNumber_intChars n r hr]


theorem dumpItems_nil (lvl : Nat) : dumpItems [] lvl = [] := rfl

theorem dumpItems_cons (x : Json) (xs : List Json) (lvl : Nat) :
    dumpItems (x :: xs) lvl = ',' :: (nlInd lvl ++ dumpValue x lvl ++ dumpItems xs lvl) := rfl

theorem dumpValue_int (n : Int) (lvl : Nat) : dumpValue (.intVal n) lvl = intChars n := rfl

theorem dumpValue_str (s : List Char) (lvl : Nat) : dumpValue (.str s) lvl = dumpStr s := rfl

theorem dumpValue_arr_nil (lvl : Nat) : dumpValue (.arr []) lvl = ['[', ']'] := rfl

theorem dumpValue_arr_cons (x : Json) (xs : List Json) (lvl : Nat) :
    dumpValue (.arr (x :: xs)) lvl =
      '[' :: (nlInd (lvl + 1) ++ dumpValue x (lvl + 1) ++ dumpItems xs (lvl + 1)
        ++ nlInd lvl ++ [']']) := rfl

theorem dumpPairs_nil (lvl : Nat) : dumpPairs [] lvl = [] := rfl

theorem dumpPairs_cons (kv : List Char × Json) (kvs : List (List Char × Json)) (lvl : Nat) :
    dumpPairs (kv :: kvs) lvl =
      ',' :: (nlInd lvl ++ dumpStr kv.1 ++ ':' :: ' ' :: dumpValue kv.2 lvl
        ++ dumpPairs kvs lvl) := rfl

theorem dumpValue_obj_cons (kv : List Char × Json) (kvs : List (List Char × Json)) (lvl : Nat) :
    dumpValue (.obj (kv :: kvs)) lvl =
      '{' :: (nlInd (lvl + 1) ++ dumpStr kv.1 ++ ':' :: ' ' :: dumpValue kv.2 (lvl + 1)
        ++ dumpPairs kvs (lvl + 1) ++ nlInd lvl ++ ['}']) := rfl

theorem numBoundary_nlInd (lvl : Nat) (X : List Char) : NumBoundary (nlInd lvl ++ X) :=
  numBoundary_cons '\n' _ (by decide)

theorem intChars_head (v : Int) :
    ∃ d ds, intChars v = d :: ds ∧ jsonWs d = false ∧ d ≠ ']' := by
  by_cases hv : v < 0
  · refine ⟨'-', natToChars v.natAbs, ?_, by decide, by decide⟩
    unfold intChars
    rw [if_pos hv]
  · obtain ⟨d, ds, heq, _⟩ := natToChars_head v.toNat
    have hd : isAsciiDigit d = true :=
      natToChars_all v.toNat d (heq ▸ List.mem_cons_self d ds)
    refine ⟨d, ds, ?_, (digit_char_class d hd).1, ?_⟩
    · unfold intChars
      rw [if_neg hv, heq]
    · rintro rfl
      revert hd
      decide

theorem parseElements_ints (vs : List Int) : ∀ (v : Int) (acc : List Json) (L lvl : Nat)
    (r : List Char) (f : Nat), 2 * vs.length + 4 ≤ f →
    parseElements f acc
        (intChars v ++ (dumpItems (vs.map Json.intVal) L ++ (nlInd lvl ++ (']' :: r))))
      = some (.arr (acc ++ .intVal v :: vs.map Json.intVal), r) := by
  induction vs with
  | nil =>
    intro v acc L lvl r f hf
    obtain ⟨f1, rfl⟩ : ∃ g, f = g + 1 := ⟨f - 1, by omega⟩
    obtain ⟨f2, rfl⟩ : ∃ g, f1 = g + 1 := ⟨f1 - 1, by omega⟩
    unfold parseElements
    rw [List.map_nil, dumpItems_nil, List.nil_append,
      parseValue_intChars f2 v _ (numBoundary_nlInd lvl (']' :: r))]
    dsimp only
    rw [skipWs_nlInd, skipWs_not ']' r (by decide)]
    simp [Char.reduceEq, reduceIte]
  | cons v2 vs ih =>
    intro v acc L lvl r f hf
    obtain ⟨f1, rfl⟩ : ∃ g, f = g + 1 := ⟨f - 1, by omega⟩
    obtain ⟨f2, rfl⟩ : ∃ g, f1 = g + 1 := ⟨f1 - 1, by omega⟩
    unfold parseElements
    rw [List.map_cons, dumpItems_cons, dumpValue_int]
    rw [show (',' :: (nlInd L ++ intChars v2 ++ dumpItems (vs.map Json.intVal) L)
          ++ (nlInd lvl ++ (']' :: r)))
        = ',' :: (nlInd L ++ (intChars v2 ++ (dumpItems (vs.map Json.intVal) L
          ++ (nlInd lvl ++ (']' :: r))))) by simp [List.append_assoc]]
    rw [parseValue_intChars f2 v _ (numBoundary_cons ',' _ (by decide))]
    dsimp only
    rw [skipWs_not ',' _ (by decide)]
    simp only [Char.reduceEq, reduceIte]
    rw [parseElements_congr (f2 + 1) _ _ _ (skipWs_nlInd L _),
      ih v2 (acc ++ [Json.intVal v]) L lvl r (f2 + 1) (by simp at hf; omega)]
    simp

theorem parseValue_arrInts (f lvl : Nat) (vs : List Int) (r : List Char)
    (hf : 2 * vs.length + 5 ≤ f) :
    parseValue f (dumpValue (.arr (vs.map Json.intVal)) lvl ++ r)
      = some (.arr (vs.map Json.intVal), r) := by
  obtain ⟨f1, rfl⟩ : ∃ g, f = g + 1 := ⟨f - 1, by omega⟩
  cases vs with
  | nil =>
    rw [List.map_nil, dumpValue_arr_nil]
    unfold parseValue
    rw [show (['[', ']'] : List Char) ++ r = '[' :: ']' :: r from rfl,
      skipWs_not '[' _ (by decide)]
    dsimp only
    simp only [Char.reduceEq, reduceIte]
    rw [skipWs_not ']' r (by decide)]
    simp [Char.reduceEq, reduceIte]
  | cons v vs =>
    rw [List.map_cons, dumpValue_arr_cons, dumpValue_int]
    rw [show ('[' :: (nlInd (lvl + 1) ++ intChars v ++ dumpItems (vs.map Json.intVal) (lvl + 1)
          ++ nlInd lvl ++ [']'])) ++ r
        = '[' :: (nlInd (lvl + 1) ++ (intChars v ++ (dumpItems (vs.map Json.intVal) (lvl + 1)
          ++ (nlInd lvl ++ (']' :: r))))) by simp [List.append_assoc]]
    unfold parseValue
    rw [skipWs_not '[' _ (by decide)]
    dsimp only
    simp only [Char.reduceEq, reduceIte]
    rw [skipWs_nlInd]
    obtain ⟨d, ds, heq, hws, hbr⟩ := intChars_head v
    rw [heq, List.cons_append, skipWs_not d _ hws]
    dsimp only
    rw [if_neg hbr]
    rw [show d :: (ds ++ (dumpItems (vs.map Json.intVal) (lvl + 1) ++ (nlInd lvl ++ (']' :: r))))
        = intChars v ++ (dumpItems (vs.map Json.intVal) (lvl + 1) ++ (nlInd lvl ++ (']' :: r)))
      by rw [heq, List.cons_append]]
    rw [parseElements_ints vs v [] (lvl + 1) lvl r f1 (by simp at hf ⊢; omega)]
    simp

theorem skipWs_space (X : List Char) : skipWs (' ' :: X) = skipWs X := by
  simp [skipWs, jsonWs]

theorem dumpStr_append (k Y : List Char) :
    dumpStr k ++ Y = '"' :: ((escapeStr k ++ ['"']) ++ Y) := rfl

theorem skipWs_dumpStr (k A : List Char) : skipWs (dumpStr k ++ A) = dumpStr k ++ A := by
  rw [dumpStr_append]
  exact skipWs_not '"' _ (by decide)

theorem parseMembers_strStep (f : Nat) (pairs : List (List Char × Json)) (k s : List Char)
    (L : Nat) (X : List Char) :
    parseMembers (f + 1 + 1) pairs
        (dumpStr k ++ (':' :: ' ' :: (dumpStr s ++ (',' :: (nlInd L ++ X)))))
      = parseMembers (f + 1) (objInsert pairs k (.str s)) (skipWs X) := by
  rw [dumpStr_append]
  conv_lhs => unfold parseMembers
  dsimp only
  simp only [Char.reduceEq, reduceIte]
  rw [List.append_assoc, List.singleton_append, parseStringBody_escape]
  dsimp only
  rw [skipWs_not ':' _ (by decide)]
  dsimp only
  simp only [Char.reduceEq, reduceIte]
  rw [parseValue_congr (f + 1) _ _ (skipWs_space _), parseValue_dumpStr f s _]
  dsimp only
  rw [skipWs_not ',' _ (by decide)]
  dsimp only
  simp only [Char.reduceEq, reduceIte]
  rw [skipWs_nlInd]

theorem parseMembers_votiStep (f : Nat) (pairs : List (List Char × Json)) (k : List Char)
    (vs : List Int) (L lvl : Nat) (r : List Char) (hf : 2 * vs.length + 5 ≤ f) :
    parseMembers (f + 1) pairs
        (dumpStr k ++ (':' :: ' ' :: (dumpValue (.arr (vs.map Json.intVal)) L
          ++ (nlInd lvl ++ ('}' :: r)))))
      = some (.obj (objInsert pairs k (.arr (vs.map Json.intVal))), r) := by
  rw [dumpStr_append]
  unfold parseMembers
  dsimp only
  simp only [Char.reduceEq, reduceIte]
  rw [List.append_assoc, List.singleton_append, parseStringBody_escape]
  dsimp only
  rw [skipWs_not ':' _ (by decide)]
  dsimp only
  simp only [Char.reduceEq, reduceIte]
  rw [parseValue_congr f _ _ (skipWs_space _), parseValue_arrInts f L vs _ hf]
  dsimp only
  rw [skipWs_nlInd, skipWs_not '}' _ (by decide)]
  simp [Char.reduceEq, reduceIte]

theorem parseValue_studente (f lvl : Nat) (st : Studente) (r : List Char)
    (hf : 2 * st.voti.length + 10 ≤ f) :
    parseValue f (dumpValue (studenteJson st) lvl ++ r) = some (studenteJson st, r) := by
  obtain ⟨c, rfl⟩ : ∃ g, f = g + 1 + 1 + 1 + 1 + 1 := ⟨f - 5, by omega⟩
  have hc : 2 * st.voti.length + 5 ≤ c := by omega
  rw [show studenteJson st
      = .obj [(("matricola".data), .str st.matricola), (("nome".data), .str st.nome),
              (("cognome".data), .str st.cognome),
              (("voti".data), .arr (st.voti.map Json.intVal))] from rfl]
  rw [dumpValue_obj_cons, List.cons_append]
  unfold parseValue
  rw [skipWs_not '{' _ (by decide)]
  dsimp only
  simp only [Char.reduceEq, reduceIte]
  simp only [dumpValue_str, dumpPairs_cons, dumpPairs_nil, List.append_assoc,
    List.cons_append, List.nil_append]
  rw [skipWs_nlInd, skipWs_dumpStr, dumpStr_append]
  dsimp only
  simp only [Char.reduceEq, reduceIte]
  rw [← dumpStr_append]
  rw [parseMembers_strStep, skipWs_dumpStr, parseMembers_strStep, skipWs_dumpStr,
    parseMembers_strStep, skipWs_dumpStr, parseMembers_votiStep _ _ _ _ _ _ _ hc]
  rfl

theorem studenteDump_head (st : Studente) (L : Nat) :
    ∃ ds, dumpValue (studenteJson st) L = '{' :: ds := ⟨_, rfl⟩

theorem parseElements_studenti (sts : List Studente) : ∀ (st : Studente) (acc : List Json)
    (L lvl : Nat) (r : List Char) (f : Nat), votiFuel (st :: sts) ≤ f →
    parseElements f acc
        (dumpValue (studenteJson st) L
          ++ (dumpItems (sts.map studenteJson) L ++ (nlInd lvl ++ (']' :: r))))
      = some (.arr (acc ++ studenteJson st :: sts.map studenteJson), r) := by
  induction sts with
  | nil =>
    intro st acc L lvl r f hf
    have hf2 : 2 * st.voti.length + 12 ≤ f := by simp only [votiFuel] at hf; omega
    obtain ⟨f1, rfl⟩ : ∃ g, f = g + 1 := ⟨f - 1, by omega⟩
    unfold parseElements
    rw [List.map_nil, dumpItems_nil, List.nil_append,
      parseValue_studente f1 L st _ (by omega)]
    dsimp only
    rw [skipWs_nlInd, skipWs_not ']' r (by decide)]
    simp [Char.reduceEq, reduceIte]
  | cons st2 sts ih =>
    intro st acc L lvl r f hf
    have hf2 : 2 * st.voti.length + 11 + votiFuel (st2 :: sts) ≤ f := by
      simp only [votiFuel] at hf ⊢; omega
    obtain ⟨f1, rfl⟩ : ∃ g, f = g + 1 := ⟨f - 1, by omega⟩
    unfold parseElements
    rw [List.map_cons, dumpItems_cons]
    rw [show (dumpValue (studenteJson st) L
          ++ ((',' :: (nlInd L ++ dumpValue (studenteJson st2) L
            ++ dumpItems (sts.map studenteJson) L))
          ++ (nlInd lvl ++ (']' :: r))))
        = dumpValue (studenteJson st) L
          ++ (',' :: (nlInd L ++ (dumpValue (studenteJson st2) L
            ++ (dumpItems (sts.map studenteJson) L ++ (nlInd lvl ++ (']' :: r))))))
      by simp [List.append_assoc]]
    have hvf : 1 ≤ votiFuel (st2 :: sts) := by simp only [votiFuel]; omega
    rw [parseValue_studente f1 L st _ (by omega)]
    dsimp only
    rw [skipWs_not ',' _ (by decide)]
    simp only [Char.reduceEq, reduceIte]
    rw [parseElements_congr f1 _ _ _ (skipWs_nlInd L _),
      ih st2 (acc ++ [studenteJson st]) L lvl r f1 (by omega)]
    simp

theorem parseValue_roster (f lvl : Nat) (roster : List Studente) (r : List Char)
    (hf : votiFuel roster + 1 ≤ f) :
    parseValue f (dumpValue (rosterToJson roster) lvl ++ r)
      = some (rosterToJson roster, r) := by
  obtain ⟨f1, rfl⟩ : ∃ g, f = g + 1 := ⟨f - 1, by omega⟩
  cases roster with
  | nil =>
    rw [show rosterToJson [] = .arr [] from rfl, dumpValue_arr_nil]
    unfold parseValue
    rw [show (['[', ']'] : List Char) ++ r = '[' :: ']' :: r from rfl,
      skipWs_not '[' _ (by decide)]
    dsimp only
    simp only [Char.reduceEq, reduceIte]
    rw [skipWs_not ']' r (by decide)]
    simp [Char.reduceEq, reduceIte]
  | cons st sts =>
    rw [show rosterToJson (st :: sts) = .arr (studenteJson st :: sts.map studenteJson)
        from rfl]
    rw [dumpValue_arr_cons]
    rw [show ('[' :: (nlInd (lvl + 1) ++ dumpValue (studenteJson st) (lvl + 1)
          ++ dumpItems (sts.map studenteJson) (lvl + 1) ++ nlInd lvl ++ [']'])) ++ r
        = '[' :: (nlInd (lvl + 1) ++ (dumpValue (studenteJson st) (lvl + 1)
          ++ (dumpItems (sts.map studenteJson) (lvl + 1) ++ (nlInd lvl ++ (']' :: r)))))
      by simp [List.append_assoc]]
    unfold parseValue
    rw [skipWs_not '[' _ (by decide)]
    dsimp only
    simp only [Char.reduceEq, reduceIte]
    rw [skipWs_nlInd]
    obtain ⟨ds, heq⟩ := studenteDump_head st (lvl + 1)
    rw [heq, List.cons_append, skipWs_not '{' _ (by decide)]
    dsimp only
    simp only [Char.reduceEq, reduceIte]
    rw [show '{' :: (ds ++ (dumpItems (sts.map studenteJson) (lvl + 1)
          ++ (nlInd lvl ++ (']' :: r))))
        = dumpValue (studenteJson st) (lvl + 1)
          ++ (dumpItems (sts.map studenteJson) (lvl + 1) ++ (nlInd lvl ++ (']' :: r)))
      by rw [heq, List.cons_append]]
    rw [parseElements_studenti sts st [] (lvl + 1) lvl r f1
      (by simp only [votiFuel] at hf ⊢; omega)]
    simp

theorem dumpItems_length (xs : List Json) (L : Nat) :
    xs.length ≤ (dumpItems xs L).length := by
  induction xs with
  | nil => simp [dumpItems_nil]
  | cons x xs ih =>
    rw [dumpItems_cons]
    simp only [List.length_cons, List.length_append]
    omega

theorem dumpValue_arrInts_length (vs : List Int) (L : Nat) :
    vs.length ≤ (dumpValue (.arr (vs.map Json.intVal)) L).length := by
  cases vs with
  | nil => simp [dumpValue_arr_nil]
  | cons v vs =>
    rw [List.map_cons, dumpValue_arr_cons]
    have h := dumpItems_length (vs.map Json.intVal) (L + 1)
    simp only [List.length_cons, List.length_append, List.length_map] at h ⊢
    omega

theorem studente_dump_length (st : Studente) (L : Nat) :
    st.voti.length + 6 ≤ (dumpValue (studenteJson st) L).length := by
  rw [show studenteJson st
      = .obj [(("matricola".data), .str st.matricola), (("nome".data), .str st.nome),
              (("cognome".data), .str st.cognome),
              (("voti".data), .arr (st.voti.map Json.intVal))] from rfl]
  rw [dumpValue_obj_cons]
  simp only [dumpPairs_cons, dumpPairs_nil, dumpValue_str]
  have h := dumpValue_arrInts_length st.voti (L + 1)
  simp only [List.length_cons, List.length_append, List.length_nil]
  omega

theorem votiFuel_items (sts : List Studente) (L : Nat) :
    votiFuel sts ≤ 2 * (dumpItems (sts.map studenteJson) L).length + 1 := by
  induction sts with
  | nil => simp [votiFuel, dumpItems_nil]
  | cons st sts ih =>
    rw [List.map_cons, dumpItems_cons]
    have h1 := studente_dump_length st L
    simp only [votiFuel, List.length_cons, List.length_append]
    omega

theorem votiFuel_le (roster : List Studente) :
    votiFuel roster + 1 ≤ 2 * (dumpValue (rosterToJson roster) 0).length + 2 := by
  cases roster with
  | nil =>
    rw [show rosterToJson [] = .arr [] from rfl, dumpValue_arr_nil]
    simp [votiFuel]
  | cons st sts =>
    rw [show rosterToJson (st :: sts) = .arr (studenteJson st :: sts.map studenteJson)
        from rfl, dumpValue_arr_cons]
    have h1 := studente_dump_length st (0 + 1)
    have h2 := votiFuel_items sts (0 + 1)
    simp only [votiFuel, List.length_cons, List.length_append]
    omega

/-- C2: for every roster of valid records (string identity fields, integer
grades), saving the roster with the mutation operations' encoder
(`json.dump(..., ensure_ascii=False, indent=2)` over UTF-8) and then loading
the file with `leggi_studenti_da_file` yields exactly the in-memory roster
(deep equality of the decoded JSON value). -/
theorem salva_leggi_roundtrip (roster : List Studente) :
    leggi_studenti_da_file (some (salvaRoster roster)) = some (rosterToJson roster) := by
  have hp := parseValue_roster (2 * (dumpValue (rosterToJson roster) 0).length + 2) 0
    roster [] (votiFuel_le roster)
  rw [List.append_nil] at hp
  unfold leggi_studenti_da_file salvaRoster salvaBytes
  dsimp only
  rw [utf8Decode_encode]
  dsimp only
  unfold parseJson
  rw [hp]
  rfl

end Registro
